import Mathlib

/-!
Verification of the Mekofix backend core (geospatial matcher, service-request
state machine, settlement ledger, rating aggregator) against its specification.

The definitions below are a shallow embedding of the TypeScript controllers in
`backend/src/controllers/mechanicController.ts` and
`backend/src/controllers/serviceRequestController.ts`.  JavaScript numbers are
modelled as rationals (`ℚ`), JSON body values as `JVal` (number or string, with
JavaScript truthiness and `parseFloat`/`parseInt` semantics), database tables as
Lean lists, and each HTTP handler as a pure function from a database state and
its inputs to a new database state together with an `Except`-style outcome.
-/

namespace Mekofix

/-! ## JavaScript value model -/

/-- A JSON body / query value as the controllers receive it: a JS number or a
JS string.  (Absent fields are modelled with `Option JVal` at use sites; the
claims exercised here only need numbers and strings.) -/
inductive JVal where
  | jnum (q : ℚ)
  | jstr (s : String)
deriving DecidableEq

/-- JavaScript truthiness of a `JVal`: the number `0` and the empty string are
falsy, everything else is truthy. -/
def truthy : JVal → Bool
  | .jnum q => q != 0
  | .jstr s => s != ""

/-- Numeric value of a list of decimal digit characters. -/
def digitsToNat : List Char → ℕ :=
  List.foldl (fun acc c => 10 * acc + (c.toNat - '0'.toNat)) 0

/-- JavaScript `parseFloat` on a string, for canonical non-negative decimal
numerals: a (possibly empty) run of leading digits, optionally followed by a
dot and further digits; any trailing garbage is ignored, exactly as
`parseFloat` ignores it.  Strings with no leading numeral (including the empty
string) give `none`, modelling `NaN`.  Signs and exponents never occur in the
inputs the claims exercise and are not modelled. -/
def parseFloatStr (s : String) : Option ℚ :=
  let cs := s.data
  let intPart := cs.takeWhile Char.isDigit
  let rest := cs.dropWhile Char.isDigit
  let fracPart :=
    match rest with
    | '.' :: t => t.takeWhile Char.isDigit
    | _ => []
  if intPart = [] ∧ fracPart = [] then none
  else some ((digitsToNat intPart : ℚ) + (digitsToNat fracPart : ℚ) / (10 : ℚ) ^ fracPart.length)

/-- JavaScript `parseFloat` applied to a `JVal` (a number stringifies to itself). -/
def parseFloat : JVal → Option ℚ
  | .jnum q => some q
  | .jstr s => parseFloatStr s

/-- Truncation toward zero, the effect of JavaScript `parseInt` on a finite
decimal number (it stringifies the number and parses the integer prefix). -/
def jsTrunc (q : ℚ) : ℤ := q.num / (q.den : ℤ)

/-- JavaScript `parseInt` applied to a `JVal`. -/
def parseInt : JVal → Option ℤ
  | .jnum q => some (jsTrunc q)
  | .jstr s =>
    let intPart := s.data.takeWhile Char.isDigit
    if intPart = [] then none else some (digitsToNat intPart : ℤ)

/-- JavaScript `Math.round`: half-integers round toward positive infinity. -/
def jsRound (q : ℚ) : ℤ := ⌊q + 1 / 2⌋

/-- The pattern `Math.round(x * 10) / 10` used by the controllers to round a
value to one decimal place. -/
def round1 (q : ℚ) : ℚ := (jsRound (q * 10) : ℚ) / 10

/-- JavaScript truthiness of a nullable numeric column: `null` and `0` are
falsy. -/
def optTruthy : Option ℚ → Bool
  | none => false
  | some q => q != 0

/-! ## Geospatial matcher (`getNearbyMechanics`)

The handler queries `mechanic_profiles` joined with `users` (filtering
`verification_status = 'approved'` and `is_available = true` in the query),
fetches each mechanic's specializations, then filters, decorates and sorts in
JS.  A row of that join and a specialization-table row are modelled below.

The distance function of the source (`calculateDistance`, the haversine
formula with Earth radius 6371 km) is floating-point trigonometry; it is kept
as an explicit parameter `dist` of the embedding, and the structural theorems
below hold for every distance function, in particular for the haversine. -/

/-- One row of the `mechanic_profiles ⋈ users` query made by
`getNearbyMechanics`. -/
structure MechanicRow where
  id : ℕ
  user_id : ℕ
  rating : ℚ
  total_jobs : ℕ
  is_available : Bool
  verification_status : String
  full_name : String
  location_lat : Option ℚ
  location_lng : Option ℚ
deriving DecidableEq

/-- One row of the `mechanic_specializations` table: mechanic id and
specialization name. -/
structure SpecRow where
  mechanic_id : ℕ
  specialization : String
deriving DecidableEq

/-- One element of the `getNearbyMechanics` response. -/
structure NearbyMechanic where
  id : ℕ
  name : String
  rating : ℚ
  total_jobs : ℕ
  specializations : List String
  distance : ℚ
  is_available : Bool
  latitude : ℚ
  longitude : ℚ
deriving DecidableEq

/-- Comparator used by the final `.sort((a, b) => a.distance - b.distance)`. -/
def byDistance (a b : NearbyMechanic) : Prop := a.distance ≤ b.distance

instance : DecidableRel byDistance := fun a b => inferInstanceAs (Decidable (a.distance ≤ b.distance))

/-- The specializations recorded for mechanic `mid` (the `specMap` lookup). -/
def specsOf (specTable : List SpecRow) (mid : ℕ) : List String :=
  (specTable.filter (fun s => s.mechanic_id == mid)).map (·.specialization)

/-- The body of the `.map` in `getNearbyMechanics`: `none` models the
`return null` dropouts (missing/falsy coordinates, failed specialization
filter, out of radius). -/
def nearbyEntry (dist : ℚ → ℚ → ℚ → ℚ → ℚ) (specTable : List SpecRow)
    (latitude longitude radiusKm : ℚ) (specialization : Option String)
    (m : MechanicRow) : Option NearbyMechanic :=
  if ¬ (optTruthy m.location_lat ∧ optTruthy m.location_lng) then none
  else
    let lat := m.location_lat.getD 0
    let lng := m.location_lng.getD 0
    let distance := dist latitude longitude lat lng
    let mechanicSpecs := specsOf specTable m.id
    let specOk :=
      match specialization with
      | some sp => mechanicSpecs.any (fun s => s.toLower == sp.toLower)
      | none => true
    if !specOk then none
    else if radiusKm < distance then none
    else some {
      id := m.id
      name := m.full_name
      rating := m.rating
      total_jobs := m.total_jobs
      specializations := mechanicSpecs
      distance := round1 distance
      is_available := m.is_available
      latitude := lat
      longitude := lng }

/-- The `getNearbyMechanics` handler after input parsing: server-side filter
on approval and availability, per-mechanic map/filter, then a stable sort by
distance (JS `Array.prototype.sort` is stable). -/
def getNearbyMechanics (dist : ℚ → ℚ → ℚ → ℚ → ℚ) (rows : List MechanicRow)
    (specTable : List SpecRow) (latitude longitude radiusKm : ℚ)
    (specialization : Option String) : List NearbyMechanic :=
  let mechanics := rows.filter (fun m => m.verification_status == "approved" && m.is_available)
  let mechanicsWithDistance :=
    mechanics.filterMap (nearbyEntry dist specTable latitude longitude radiusKm specialization)
  List.insertionSort byDistance mechanicsWithDistance

/-- Membership condition of the specification's contract for the nearby query,
stated from the spec's words: approved, available, location data present
(non-null), within the radius, and matching the specialization filter
case-insensitively. -/
def specNearbyIncluded (dist : ℚ → ℚ → ℚ → ℚ → ℚ) (specTable : List SpecRow)
    (latitude longitude radiusKm : ℚ) (specialization : Option String)
    (m : MechanicRow) : Prop :=
  m.verification_status = "approved" ∧ m.is_available = true ∧
  m.location_lat.isSome ∧ m.location_lng.isSome ∧
  dist latitude longitude (m.location_lat.getD 0) (m.location_lng.getD 0) ≤ radiusKm ∧
  (∀ sp, specialization = some sp →
    (specsOf specTable m.id).any (fun s => s.toLower == sp.toLower) = true)

/-! ## Core data model -/

/-- The `status` column of `service_requests`. -/
inductive Status where
  | pending
  | accepted
  | in_progress
  | completed
  | cancelled
deriving DecidableEq, Inhabited

/-- A `service_requests` row.  Timestamps are abstract ticks (`ℕ`);
`customer_rating` is the integer produced by `parseInt`. -/
structure ServiceRequest where
  id : ℕ
  customer_id : ℕ
  mechanic_id : ℕ
  vehicle_id : ℕ
  category_id : ℕ
  problem_description : String
  status : Status
  material_cost : Option ℚ := none
  labor_cost : Option ℚ := none
  total_cost : Option ℚ := none
  customer_rating : Option ℤ := none
  customer_review : Option String := none
  mechanic_confirmed : Bool := false
  customer_confirmed : Bool := false
  arrived_at : Option ℕ := none
  completed_at : Option ℕ := none
deriving DecidableEq, Inhabited

/-- A `mechanic_profiles` row (the fields the core logic reads and writes). -/
structure MechanicProfile where
  user_id : ℕ
  is_available : Bool
  verification_status : String
  wallet_balance : ℚ
  rating : ℚ
  total_jobs : ℕ
deriving DecidableEq, Inhabited

/-- The `transaction_type` column of `wallet_transactions`. -/
inductive TxnType where
  | commission_deduction
  | withdrawal
  | top_up
  | credit
deriving DecidableEq, Inhabited

/-- The `status` column of `wallet_transactions` (withdrawal entries). -/
inductive TxnStatus where
  | pending
  | completed
  | failed
deriving DecidableEq, Inhabited

/-- A `wallet_transactions` row. -/
structure WalletTransaction where
  user_id : ℕ
  amount : ℚ
  transaction_type : TxnType
  description : String
  reference_id : Option ℕ := none
  reference_type : Option String := none
  status : Option TxnStatus := none
  bank_details : Option String := none
deriving DecidableEq, Inhabited

/-- The persisted state the controllers act on.  `vehicles` holds
`(vehicle id, customer id)` pairs of `customer_vehicles`; `nextId` is the
id-generation counter for new service requests. -/
structure DB where
  requests : List ServiceRequest
  profiles : List MechanicProfile
  transactions : List WalletTransaction
  vehicles : List (ℕ × ℕ)
  nextId : ℕ
deriving DecidableEq

/-! ## Database access helpers -/

/-- Lookup of a service request by id (`.eq('id', id).single()`). -/
def findReq (db : DB) (rid : ℕ) : Option ServiceRequest :=
  db.requests.find? (fun r => r.id == rid)

/-- Lookup of a mechanic profile by user id (`.eq('user_id', userId).single()`). -/
def findProfile (db : DB) (uid : ℕ) : Option MechanicProfile :=
  db.profiles.find? (fun p => p.user_id == uid)

/-- An `update(...).eq('id', rid)` on `service_requests`. -/
def updateReq (db : DB) (rid : ℕ) (f : ServiceRequest → ServiceRequest) : DB :=
  { db with requests := db.requests.map (fun r => if r.id == rid then f r else r) }

/-- An `update(...).eq('user_id', uid)` on `mechanic_profiles`. -/
def updateProfile (db : DB) (uid : ℕ) (f : MechanicProfile → MechanicProfile) : DB :=
  { db with profiles := db.profiles.map (fun p => if p.user_id == uid then f p else p) }

/-- An `insert(...)` into `wallet_transactions` (append-only ledger). -/
def insertTxn (db : DB) (t : WalletTransaction) : DB :=
  { db with transactions := db.transactions ++ [t] }

/-- Does `t` match the settlement idempotency query for request `rid`
(`reference_id = rid`, `reference_type = 'service_request'`,
`transaction_type = 'commission_deduction'`)? -/
def isCommFor (rid : ℕ) (t : WalletTransaction) : Bool :=
  t.reference_id == some rid && t.reference_type == some "service_request" &&
    t.transaction_type == .commission_deduction

/-- The settlement idempotency check: an existing `commission_deduction`
transaction referencing request `rid`. -/
def hasCommissionTxn (ts : List WalletTransaction) (rid : ℕ) : Bool :=
  ts.any (isCommFor rid)

/-- Sum of `amount` over the wallet transactions of user `uid`. -/
def txnSum (ts : List WalletTransaction) (uid : ℕ) : ℚ :=
  ((ts.filter (fun t => t.user_id == uid)).map (·.amount)).sum

/-- Sum of `labor_cost` over the requests (in `rs`) of mechanic `uid` that are
settled in the ledger `ts` (i.e. have a `commission_deduction` transaction
referencing them). -/
def settledLabor (rs : List ServiceRequest) (ts : List WalletTransaction) (uid : ℕ) : ℚ :=
  ((rs.filter (fun r => r.mechanic_id == uid && hasCommissionTxn ts r.id)).map
    (fun r => r.labor_cost.getD 0)).sum

/-- Settled labor of mechanic `uid` in database `db`. -/
def settledLaborSum (db : DB) (uid : ℕ) : ℚ :=
  settledLabor db.requests db.transactions uid

/-- Pointwise contribution of one request to `settledLabor`. -/
def settledContribution (ts : List WalletTransaction) (uid : ℕ) (r : ServiceRequest) : ℚ :=
  if r.mechanic_id == uid && hasCommissionTxn ts r.id then r.labor_cost.getD 0 else 0

/-! ## Operations

Each handler becomes a function `DB → inputs → DB × Except Err Unit`: the new
database state (unchanged on guard failures, which the source raises before
any write) and the outcome.  Notification inserts (fire-and-forget
collaborator events) are outside the verified state and omitted. -/

/-- Error taxonomy of `CustomError` sites relevant to the claims. -/
inductive Err where
  | unauthorized
  | missingFields
  | invalidValues
  | ratingRange
  | notFound
  | forbidden
  | badState
  | notAvailable
  | insufficientBalance
  | internal
deriving DecidableEq

/-- Modelled from the spec: mechanic registration (identity issuance is an
external collaborator; `authController.ts` inserts the profile with
`verification_status: 'pending'`, `is_available: false`, and the schema
defaults `wallet_balance = 0`, `rating = 0`, `total_jobs = 0`).  The insert is
guarded by the uniqueness of `user_id`. -/
def registerMechanic (db : DB) (uid : ℕ) : DB × Except Err Unit :=
  match findProfile db uid with
  | some _ => (db, .error .badState)
  | none =>
    ({ db with profiles := db.profiles ++
        [{ user_id := uid, is_available := false, verification_status := "pending",
           wallet_balance := 0, rating := 0, total_jobs := 0 }] }, .ok ())

/-- Modelled from the spec: the external verification gate flipping a
mechanic's `verification_status` to `approved` (admin moderation is out of
scope of the repository; only `approved` providers are matchable). -/
def envApproveMechanic (db : DB) (uid : ℕ) : DB :=
  updateProfile db uid (fun p => { p with verification_status := "approved" })

/-- The `toggleAvailability` handler (`mechanicController.ts`). -/
def toggleAvailability (db : DB) (uid : ℕ) : DB × Except Err Unit :=
  match findProfile db uid with
  | none => (db, .error .notFound)
  | some p =>
    (updateProfile db uid (fun q => { q with is_available := !p.is_available }), .ok ())

/-- Modelled from the spec: registration of a customer vehicle (the vehicle
CRUD endpoints are not part of the verified core; `createServiceRequest` only
checks that the `(vehicle, customer)` pair exists in `customer_vehicles`). -/
def addVehicle (db : DB) (vid cid : ℕ) : DB :=
  { db with vehicles := db.vehicles ++ [(vid, cid)] }

/-- The row inserted by `createServiceRequest` (fresh id, `pending`, both
confirmation flags at their `false` defaults, null costs and rating). -/
def newRequest (db : DB) (customerId mechanicId vehicleId categoryId : ℕ)
    (problem : String) : ServiceRequest :=
  { id := db.nextId, customer_id := customerId, mechanic_id := mechanicId,
    vehicle_id := vehicleId, category_id := categoryId,
    problem_description := problem, status := .pending }

/-- The `createServiceRequest` handler (`serviceRequestController.ts`). -/
def createServiceRequest (db : DB) (customerId mechanicId vehicleId categoryId : ℕ)
    (problem : String) : DB × Except Err Unit :=
  match findProfile db mechanicId with
  | none => (db, .error .notFound)
  | some mechanicProfile =>
    if mechanicProfile.verification_status ≠ "approved" then (db, .error .badState)
    else if !mechanicProfile.is_available then (db, .error .notAvailable)
    else if (db.vehicles.find? (fun v => v.1 == vehicleId && v.2 == customerId)).isNone then
      (db, .error .notFound)
    else
      ({ db with
          requests := db.requests ++
            [newRequest db customerId mechanicId vehicleId categoryId problem],
          nextId := db.nextId + 1 }, .ok ())

/-- The `acceptServiceRequest` handler (`mechanicController.ts`): requires an
available profile, assignment to this mechanic, and `pending` status. -/
def acceptServiceRequest (db : DB) (userId rid : ℕ) : DB × Except Err Unit :=
  match findProfile db userId with
  | none => (db, .error .notFound)
  | some mechanicProfile =>
    if !mechanicProfile.is_available then (db, .error .notAvailable)
    else match findReq db rid with
    | none => (db, .error .notFound)
    | some serviceRequest =>
      if serviceRequest.mechanic_id ≠ userId then (db, .error .forbidden)
      else if serviceRequest.status ≠ .pending then (db, .error .badState)
      else (updateReq db rid (fun r => { r with status := .accepted }), .ok ())

/-- The `declineServiceRequest` handler (`mechanicController.ts`): a `pending`
request assigned to this mechanic transitions to `cancelled`. -/
def declineServiceRequest (db : DB) (userId rid : ℕ) : DB × Except Err Unit :=
  match findReq db rid with
  | none => (db, .error .notFound)
  | some serviceRequest =>
    if serviceRequest.mechanic_id ≠ userId then (db, .error .forbidden)
    else if serviceRequest.status ≠ .pending then (db, .error .badState)
    else (updateReq db rid (fun r => { r with status := .cancelled }), .ok ())

/-- The `markArrived` handler (`mechanicController.ts`): an `accepted` request
assigned to this mechanic transitions to `in_progress`, stamping `arrived_at`. -/
def markArrived (db : DB) (userId rid now : ℕ) : DB × Except Err Unit :=
  match findReq db rid with
  | none => (db, .error .notFound)
  | some serviceRequest =>
    if serviceRequest.mechanic_id ≠ userId then (db, .error .forbidden)
    else if serviceRequest.status ≠ .accepted then (db, .error .badState)
    else
      (updateReq db rid (fun r => { r with status := .in_progress, arrived_at := some now }),
       .ok ())

/-- The `cancelServiceRequest` handler (`serviceRequestController.ts`): the
customer cancels a `pending` or `accepted` request. -/
def cancelServiceRequest (db : DB) (userId rid : ℕ) : DB × Except Err Unit :=
  match findReq db rid with
  | none => (db, .error .notFound)
  | some serviceRequest =>
    if serviceRequest.customer_id ≠ userId then (db, .error .forbidden)
    else if serviceRequest.status ≠ .pending ∧ serviceRequest.status ≠ .accepted then
      (db, .error .badState)
    else (updateReq db rid (fun r => { r with status := .cancelled }), .ok ())

/-- The settlement block shared verbatim by both completion handlers: check
for an existing `commission_deduction` transaction referencing the request
(idempotency), and if none exists and the mechanic profile is found, credit
`labor_cost - commission` to the wallet and append the commission transaction
(`commTxn` is the appended ledger row). -/
def commTxn (mechId rid : ℕ) (commission : ℚ) : WalletTransaction :=
  { user_id := mechId, amount := -commission,
    transaction_type := .commission_deduction,
    description := "Commission deduction (15%) for service request " ++ toString rid,
    reference_id := some rid, reference_type := some "service_request" }

def settleCommission (db : DB) (rid mechId : ℕ) (laborCost : ℚ) : DB :=
  if hasCommissionTxn db.transactions rid then db
  else match findProfile db mechId with
  | none => db
  | some _ =>
    let commission := laborCost * 0.15
    let mechanicEarnings := laborCost - commission
    insertTxn
      (updateProfile db mechId
        (fun p => { p with wallet_balance := p.wallet_balance + mechanicEarnings }))
      (commTxn mechId rid commission)

/-- The rating aggregation block of `completeServiceRequest`
(`serviceRequestController.ts` lines 351-369): average `customer_rating` over
every request of this mechanic whose rating is non-null (no status filter),
rounded to one decimal place. -/
def updateMechanicRating (db : DB) (mechId : ℕ) : DB :=
  let allRatings := db.requests.filter
    (fun r => r.mechanic_id == mechId && r.customer_rating.isSome)
  if allRatings.length = 0 then db
  else
    let totalRating : ℤ := (allRatings.map (fun r => r.customer_rating.getD 0)).sum
    let averageRating : ℚ := (totalRating : ℚ) / (allRatings.length : ℚ)
    updateProfile db mechId (fun p => { p with rating := round1 averageRating })

/-- The `updateData` object of the customer-side completion: price fields,
rating, review, `customer_confirmed`, and - exactly when the mechanic had
already confirmed (`finalize`) - the `completed` status and completion
timestamp. -/
def customerCompletionUpdate (materialCost laborCost : ℚ) (customerRating : ℤ)
    (review : Option String) (finalize : Bool) (now : ℕ) (r : ServiceRequest) :
    ServiceRequest :=
  { r with
      material_cost := some materialCost, labor_cost := some laborCost,
      total_cost := some (materialCost + laborCost), customer_rating := some customerRating,
      customer_review := review, customer_confirmed := true,
      status := if finalize then .completed else r.status,
      completed_at := if finalize then some now else r.completed_at }

/-- The `updateData` object of the mechanic-side completion:
`mechanic_confirmed`, and - exactly when the customer had already confirmed
(`finalize`) - the `completed` status and completion timestamp. -/
def mechanicCompletionUpdate (finalize : Bool) (now : ℕ) (r : ServiceRequest) :
    ServiceRequest :=
  { r with
      mechanic_confirmed := true,
      status := if finalize then .completed else r.status,
      completed_at := if finalize then some now else r.completed_at }

/-- The customer-side `completeServiceRequest` handler
(`serviceRequestController.ts`): validates costs/rating (presence by JS
truthiness, then `parseFloat`/`parseInt`, then the 1-5 range), requires the
caller to be the customer and the request `in_progress`, writes the price
fields, rating, review and `customer_confirmed`, finalizes to `completed`
exactly when the mechanic had already confirmed, settles the commission on
finalization, and recomputes the mechanic's average rating. -/
def completeServiceRequest (db : DB) (userId rid : ℕ)
    (material_cost labor_cost rating : JVal) (review : Option String) (now : ℕ) :
    DB × Except Err Unit :=
  if ¬ (truthy material_cost ∧ truthy labor_cost ∧ truthy rating) then
    (db, .error .missingFields)
  else match parseFloat material_cost, parseFloat labor_cost, parseInt rating with
  | some materialCost, some laborCost, some customerRating =>
    if customerRating < 1 ∨ 5 < customerRating then (db, .error .ratingRange)
    else match findReq db rid with
    | none => (db, .error .notFound)
    | some serviceRequest =>
      if serviceRequest.customer_id ≠ userId then (db, .error .forbidden)
      else if serviceRequest.status ≠ .in_progress then (db, .error .badState)
      else
        let finalize := serviceRequest.mechanic_confirmed
        let db1 := updateReq db rid
          (customerCompletionUpdate materialCost laborCost customerRating review finalize now)
        let db2 :=
          if finalize then settleCommission db1 rid serviceRequest.mechanic_id laborCost
          else db1
        (updateMechanicRating db2 serviceRequest.mechanic_id, .ok ())
  | _, _, _ => (db, .error .invalidValues)

/-- The mechanic-side `completeServiceRequestMechanic` handler
(`mechanicController.ts`): requires assignment and `in_progress`, sets
`mechanic_confirmed`, finalizes to `completed` exactly when the customer had
already confirmed, and on finalization settles the commission from the stored
`labor_cost` - but only when that stored value is truthy (non-null and
non-zero).  No rating aggregation happens on this path. -/
def completeServiceRequestMechanic (db : DB) (userId rid now : ℕ) : DB × Except Err Unit :=
  match findReq db rid with
  | none => (db, .error .notFound)
  | some serviceRequest =>
    if serviceRequest.mechanic_id ≠ userId then (db, .error .forbidden)
    else if serviceRequest.status ≠ .in_progress then (db, .error .badState)
    else
      let finalize := serviceRequest.customer_confirmed
      let db1 := updateReq db rid (mechanicCompletionUpdate finalize now)
      let db2 :=
        if finalize ∧ optTruthy serviceRequest.labor_cost then
          settleCommission db1 rid userId (serviceRequest.labor_cost.getD 0)
        else db1
      (db2, .ok ())

/-- The `pending` `withdrawal` ledger row inserted by `withdrawFromWallet`
(`amount` is negated). -/
def withdrawalTxn (uid : ℕ) (amount : ℚ) (bank_details : Option String) : WalletTransaction :=
  { user_id := uid, amount := -amount, transaction_type := .withdrawal,
    description := "Withdrawal request", status := some .pending,
    bank_details := bank_details }

/-- The `withdrawFromWallet` handler (`mechanicController.ts`): requires a
truthy `amount` parsing to a positive number not exceeding the wallet balance;
debits the balance, then appends a `pending` `withdrawal` transaction of
`-amount`; if the transaction insert fails (`insertOk = false`, environment
nondeterminism) the debit is written back to its prior value. -/
def withdrawFromWallet (db : DB) (userId : ℕ) (amount : JVal)
    (bank_details : Option String) (insertOk : Bool) : DB × Except Err Unit :=
  if !truthy amount then (db, .error .missingFields)
  else match parseFloat amount with
  | none => (db, .error .invalidValues)
  | some withdrawalAmount =>
    if withdrawalAmount ≤ 0 then (db, .error .invalidValues)
    else match findProfile db userId with
    | none => (db, .error .notFound)
    | some mechanicProfile =>
      let currentBalance := mechanicProfile.wallet_balance
      if currentBalance < withdrawalAmount then (db, .error .insufficientBalance)
      else
        let newBalance := currentBalance - withdrawalAmount
        let db1 := updateProfile db userId (fun p => { p with wallet_balance := newBalance })
        if insertOk then
          (insertTxn db1 (withdrawalTxn userId withdrawalAmount bank_details), .ok ())
        else
          (updateProfile db1 userId (fun p => { p with wallet_balance := currentBalance }),
           .error .internal)

/-! ## The step relation and reachability -/

/-- One handler invocation (or external-collaborator event) against the shared
state, with arbitrary caller, target and payload. -/
inductive Step : DB → DB → Prop where
  | register (db : DB) (uid : ℕ) : Step db (registerMechanic db uid).1
  | approve (db : DB) (uid : ℕ) : Step db (envApproveMechanic db uid)
  | toggle (db : DB) (uid : ℕ) : Step db (toggleAvailability db uid).1
  | vehicle (db : DB) (vid cid : ℕ) : Step db (addVehicle db vid cid)
  | create (db : DB) (cid mid vid cat : ℕ) (pb : String) :
      Step db (createServiceRequest db cid mid vid cat pb).1
  | accept (db : DB) (uid rid : ℕ) : Step db (acceptServiceRequest db uid rid).1
  | decline (db : DB) (uid rid : ℕ) : Step db (declineServiceRequest db uid rid).1
  | arrive (db : DB) (uid rid now : ℕ) : Step db (markArrived db uid rid now).1
  | cancel (db : DB) (uid rid : ℕ) : Step db (cancelServiceRequest db uid rid).1
  | completeCustomer (db : DB) (uid rid : ℕ) (m l rat : JVal) (rev : Option String) (now : ℕ) :
      Step db (completeServiceRequest db uid rid m l rat rev now).1
  | completeMechanic (db : DB) (uid rid now : ℕ) :
      Step db (completeServiceRequestMechanic db uid rid now).1
  | withdraw (db : DB) (uid : ℕ) (amt : JVal) (bank : Option String) (ok : Bool) :
      Step db (withdrawFromWallet db uid amt bank ok).1

/-- The empty initial state. -/
def initDB : DB := { requests := [], profiles := [], transactions := [], vehicles := [], nextId := 0 }

/-- States reachable from the empty initial state by handler invocations. -/
def Reachable (db : DB) : Prop := Relation.ReflTransGen Step initDB db

/-! ## Derived predicates and spec-side definitions -/

/-- Requests of mechanic `mechId` carrying a non-null `customer_rating` — the
filter of the rating-aggregation query (note: no status filter). -/
def ratedRequests (rs : List ServiceRequest) (mechId : ℕ) : List ServiceRequest :=
  rs.filter (fun r => r.mechanic_id == mechId && r.customer_rating.isSome)

/-- Arithmetic mean of the `customer_rating` values of a list of requests. -/
def meanRating (rs : List ServiceRequest) : ℚ :=
  (((rs.map (fun r => r.customer_rating.getD 0)).sum : ℤ) : ℚ) / (rs.length : ℚ)

/-- The aggregate the code actually writes: mean rating over all of the
mechanic's rated requests regardless of status, rounded to one decimal place
(`none` when the mechanic has no rated request, in which case no write occurs). -/
def allRatedRating (db : DB) (mechId : ℕ) : Option ℚ :=
  let rs := ratedRequests db.requests mechId
  if rs.length = 0 then none else some (round1 (meanRating rs))

/-- The aggregate stated by the spec's words: mean `customer_rating` over the
mechanic's *completed* requests with a non-null rating, rounded to one decimal
place. -/
def specCompletedRating (db : DB) (mechId : ℕ) : Option ℚ :=
  let rs := ratedRequests (db.requests.filter (fun r => r.status == .completed)) mechId
  if rs.length = 0 then none else some (round1 (meanRating rs))

/-- Auxiliary well-formedness facts that hold in every reachable state and
carry the ledger bookkeeping: id freshness and uniqueness, every transaction
belongs to a registered mechanic, every commission transaction points back to
a request of its mechanic, settled requests are completed, at most one
commission transaction per request, a customer-confirmed request has its
pricing and rating populated, and every wallet balance decomposes as
transaction sum plus settled labor. -/
structure Inv (db : DB) : Prop where
  ids_lt : ∀ r ∈ db.requests, r.id < db.nextId
  ids_nodup : (db.requests.map (·.id)).Nodup
  uids_nodup : (db.profiles.map (·.user_id)).Nodup
  txn_user_profile : ∀ t ∈ db.transactions, ∃ p ∈ db.profiles, p.user_id = t.user_id
  comm_ref : ∀ t ∈ db.transactions, t.transaction_type = .commission_deduction →
    ∃ r ∈ db.requests, t.reference_id = some r.id ∧ t.user_id = r.mechanic_id
  settled_completed : ∀ r ∈ db.requests, hasCommissionTxn db.transactions r.id = true →
    r.status = .completed
  comm_unique : ∀ rid : ℕ, (db.transactions.filter (isCommFor rid)).length ≤ 1
  confirmed_fields : ∀ r ∈ db.requests, r.customer_confirmed = true →
    r.material_cost.isSome ∧ r.labor_cost.isSome ∧ r.total_cost.isSome ∧
      r.customer_rating.isSome
  balance_eq : ∀ p ∈ db.profiles,
    p.wallet_balance = txnSum db.transactions p.user_id + settledLaborSum db p.user_id

/-! ## A concrete reachable scenario

Mechanic (user 1) registers, is approved and toggles available; customer
(user 2) registers vehicle 7 and creates request 0; the mechanic accepts and
arrives; the customer completes with `material_cost = 50`, `labor_cost = 100`,
rating 5; the mechanic then confirms, finalizing the job and settling the
commission. -/

def sdb1 : DB := (registerMechanic initDB 1).1

def sdb2 : DB := envApproveMechanic sdb1 1

def sdb3 : DB := (toggleAvailability sdb2 1).1

def sdb4 : DB := addVehicle sdb3 7 2

def sdb5 : DB := (createServiceRequest sdb4 2 1 7 3 "engine failure").1

def sdb6 : DB := (acceptServiceRequest sdb5 1 0).1

def sdb7 : DB := (markArrived sdb6 1 0 10).1

def sdb8 : DB := (completeServiceRequest sdb7 2 0 (.jnum 50) (.jnum 100) (.jnum 5) none 20).1

def sdb9 : DB := (completeServiceRequestMechanic sdb8 1 0 30).1

/-- A variant of the scenario where the mechanic confirms first and the
customer's completion call finalizes the job (settlement on the customer path). -/
def tdb8 : DB := (completeServiceRequestMechanic sdb7 1 0 15).1

def tdb9 : DB := (completeServiceRequest tdb8 2 0 (.jnum 50) (.jnum 100) (.jnum 4) none 25).1

/-- A variant where the customer sends the costs as the strings `"0"`: JS
truthiness accepts them (a non-empty string is truthy), `parseFloat` turns
them into `0`, and the request completes with zero costs. -/
def udb8 : DB := (completeServiceRequest sdb7 2 0 (.jstr "0") (.jstr "0") (.jnum 5) none 20).1

/-! ## Concrete states for the counterexamples -/

/-- An in-progress request whose customer has confirmed with zero costs (the
state the string-`"0"` path of the customer completion produces), written with
literal fields. -/
def zeroReq : ServiceRequest :=
  { id := 0, customer_id := 2, mechanic_id := 1, vehicle_id := 7, category_id := 3,
    problem_description := "flat tire", status := .in_progress,
    material_cost := some 0, labor_cost := some 0, total_cost := some 0,
    customer_rating := some 5, customer_confirmed := true }

/-- A mechanic profile with a zero wallet. -/
def prof1 : MechanicProfile :=
  { user_id := 1, is_available := true, verification_status := "approved",
    wallet_balance := 0, rating := 0, total_jobs := 0 }

/-- Database for the zero-labor settlement counterexample. -/
def c2db : DB :=
  { requests := [zeroReq], profiles := [prof1], transactions := [],
    vehicles := [(7, 2)], nextId := 1 }

/-- A wallet fixture with balance 150 (the spec's withdrawal scenario). -/
def wdb : DB :=
  { requests := [], profiles := [{ prof1 with wallet_balance := 150 }],
    transactions := [], vehicles := [], nextId := 0 }

/-- Database for the rating-aggregation counterexample: request 0 is
in-progress with the mechanic already confirmed and no rating yet; request 1
is in-progress but already rated 1 by the customer (customer confirmed first,
mechanic not yet). -/
def c8db : DB :=
  { requests :=
      [{ id := 0, customer_id := 2, mechanic_id := 1, vehicle_id := 7, category_id := 3,
         problem_description := "engine", status := .in_progress, mechanic_confirmed := true },
       { id := 1, customer_id := 2, mechanic_id := 1, vehicle_id := 7, category_id := 3,
         problem_description := "brakes", status := .in_progress,
         material_cost := some 1, labor_cost := some 1, total_cost := some 2,
         customer_rating := some 1, customer_confirmed := true }],
    profiles := [{ user_id := 1, is_available := true, verification_status := "approved",
                   wallet_balance := 0, rating := 1, total_jobs := 0 }],
    transactions := [], vehicles := [(7, 2)], nextId := 2 }

/-- Post-state of the rating counterexample: the customer completes request 0
with rating 5, finalizing it (mechanic had confirmed). -/
def c8post : DB := (completeServiceRequest c8db 2 0 (.jnum 1) (.jnum 1) (.jnum 5) none 99).1

/-- A mechanic with two past jobs rated 4 and 5 and an in-progress third job
(the spec's `[4, 5, 3]` rating example). -/
def c8wdb : DB :=
  { requests :=
      [{ id := 0, customer_id := 2, mechanic_id := 1, vehicle_id := 7, category_id := 3,
         problem_description := "engine", status := .completed,
         material_cost := some 1, labor_cost := some 1, total_cost := some 2,
         customer_rating := some 4, mechanic_confirmed := true, customer_confirmed := true },
       { id := 1, customer_id := 2, mechanic_id := 1, vehicle_id := 7, category_id := 3,
         problem_description := "brakes", status := .completed,
         material_cost := some 1, labor_cost := some 1, total_cost := some 2,
         customer_rating := some 5, mechanic_confirmed := true, customer_confirmed := true },
       { id := 2, customer_id := 2, mechanic_id := 1, vehicle_id := 7, category_id := 3,
         problem_description := "tires", status := .in_progress }],
    profiles := [prof1], transactions := [], vehicles := [(7, 2)], nextId := 3 }

/-- A mechanic row sitting exactly on the equator: latitude `0` is location
data, but it is falsy in JS. -/
def c7row : MechanicRow :=
  { id := 5, user_id := 5, rating := 4, total_jobs := 2, is_available := true,
    verification_status := "approved", full_name := "Ada",
    location_lat := some 0, location_lng := some 5 }

/-- A concrete distance function for the matcher counterexample (any function
vanishing on identical coordinates, as the haversine does, exhibits it). -/
def c7dist : ℚ → ℚ → ℚ → ℚ → ℚ := fun _ _ _ _ => 0

/-- Customer-confirmed requests carry their pricing and rating. -/
def confirmedPriced (r : ServiceRequest) : Prop :=
  r.customer_confirmed = true →
    r.material_cost.isSome ∧ r.labor_cost.isSome ∧ r.total_cost.isSome ∧
      r.customer_rating.isSome

/-! ## Frame lemmas for the database helpers -/

@[simp] theorem updateReq_transactions (db : DB) (rid : ℕ) (f : ServiceRequest → ServiceRequest) :
    (updateReq db rid f).transactions = db.transactions := rfl

@[simp] theorem updateReq_profiles (db : DB) (rid : ℕ) (f : ServiceRequest → ServiceRequest) :
    (updateReq db rid f).profiles = db.profiles := rfl

@[simp] theorem updateReq_nextId (db : DB) (rid : ℕ) (f : ServiceRequest → ServiceRequest) :
    (updateReq db rid f).nextId = db.nextId := rfl

@[simp] theorem updateReq_requests (db : DB) (rid : ℕ) (f : ServiceRequest → ServiceRequest) :
    (updateReq db rid f).requests = db.requests.map (fun r => if r.id == rid then f r else r) := rfl

@[simp] theorem updateProfile_requests (db : DB) (uid : ℕ) (f : MechanicProfile → MechanicProfile) :
    (updateProfile db uid f).requests = db.requests := rfl

@[simp] theorem updateProfile_transactions (db : DB) (uid : ℕ) (f : MechanicProfile → MechanicProfile) :
    (updateProfile db uid f).transactions = db.transactions := rfl

@[simp] theorem updateProfile_nextId (db : DB) (uid : ℕ) (f : MechanicProfile → MechanicProfile) :
    (updateProfile db uid f).nextId = db.nextId := rfl

@[simp] theorem updateProfile_profiles (db : DB) (uid : ℕ) (f : MechanicProfile → MechanicProfile) :
    (updateProfile db uid f).profiles = db.profiles.map (fun p => if p.user_id == uid then f p else p) := rfl

@[simp] theorem insertTxn_requests (db : DB) (t : WalletTransaction) :
    (insertTxn db t).requests = db.requests := rfl

@[simp] theorem insertTxn_profiles (db : DB) (t : WalletTransaction) :
    (insertTxn db t).profiles = db.profiles := rfl

@[simp] theorem insertTxn_nextId (db : DB) (t : WalletTransaction) :
    (insertTxn db t).nextId = db.nextId := rfl

@[simp] theorem insertTxn_transactions (db : DB) (t : WalletTransaction) :
    (insertTxn db t).transactions = db.transactions ++ [t] := rfl

/-! ## Lookup lemmas -/

theorem findReq_updateReq (db : DB) (rid j : ℕ) (f : ServiceRequest → ServiceRequest)
    (hf : ∀ r, (f r).id = r.id) :
    findReq (updateReq db rid f) j =
      (findReq db j).map (fun r => if r.id == rid then f r else r) := by
  have hp : ((fun r : ServiceRequest => r.id == j) ∘ (fun r => if r.id == rid then f r else r)) =
      fun r : ServiceRequest => r.id == j := by
    funext r
    by_cases h : r.id = rid <;> simp [h, hf]
  simp only [findReq, updateReq, List.find?_map, hp]

theorem findProfile_updateProfile (db : DB) (uid v : ℕ) (f : MechanicProfile → MechanicProfile)
    (hf : ∀ p, (f p).user_id = p.user_id) :
    findProfile (updateProfile db uid f) v =
      (findProfile db v).map (fun p => if p.user_id == uid then f p else p) := by
  have hp : ((fun p : MechanicProfile => p.user_id == v) ∘
      (fun p => if p.user_id == uid then f p else p)) =
      fun p : MechanicProfile => p.user_id == v := by
    funext p
    by_cases h : p.user_id = uid <;> simp [h, hf]
  simp only [findProfile, updateProfile, List.find?_map, hp]

theorem findReq_id (db : DB) (rid : ℕ) (r : ServiceRequest) (h : findReq db rid = some r) :
    r.id = rid := by
  have := List.find?_some h
  simpa using this

theorem findReq_mem (db : DB) (rid : ℕ) (r : ServiceRequest) (h : findReq db rid = some r) :
    r ∈ db.requests :=
  List.mem_of_find?_eq_some h

theorem findProfile_uid (db : DB) (uid : ℕ) (p : MechanicProfile)
    (h : findProfile db uid = some p) : p.user_id = uid := by
  have := List.find?_some h
  simpa using this

theorem findProfile_mem (db : DB) (uid : ℕ) (p : MechanicProfile)
    (h : findProfile db uid = some p) : p ∈ db.profiles :=
  List.mem_of_find?_eq_some h

theorem nodup_key_eq {α : Type} {l : List α} {key : α → ℕ} (h : (l.map key).Nodup)
    {a b : α} (ha : a ∈ l) (hb : b ∈ l) (hk : key a = key b) : a = b :=
  List.inj_on_of_nodup_map h ha hb hk

/-- A member with the looked-up id is the lookup result (given distinct ids). -/
theorem mem_eq_findReq (db : DB) (rid : ℕ) (r0 r : ServiceRequest)
    (hnd : (db.requests.map (·.id)).Nodup) (h0 : findReq db rid = some r0)
    (hr : r ∈ db.requests) (hid : r.id = rid) : r = r0 :=
  nodup_key_eq hnd hr (findReq_mem db rid r0 h0) (by rw [hid, findReq_id db rid r0 h0])

theorem findProfile_none (db : DB) (uid : ℕ) (h : findProfile db uid = none) :
    ∀ p ∈ db.profiles, p.user_id ≠ uid := by
  intro p hp
  have := List.find?_eq_none.mp h p hp
  simpa using this

/-! ## Sum bookkeeping lemmas -/

theorem sum_filter_map_eq {α : Type} (p : α → Bool) (f : α → ℚ) (l : List α) :
    ((l.filter p).map f).sum = (l.map (fun x => if p x then f x else 0)).sum := by
  induction l with
  | nil => simp
  | cons a l ih => by_cases h : p a <;> simp [h, ih]

theorem settledLabor_eq_sum (rs : List ServiceRequest) (ts : List WalletTransaction) (uid : ℕ) :
    settledLabor rs ts uid = (rs.map (settledContribution ts uid)).sum := by
  unfold settledLabor settledContribution
  exact sum_filter_map_eq _ _ rs

/-- Replacing the summand only at one element (picked out by a duplicate-free
key) shifts the sum by the difference at that element. -/
theorem sum_map_congr_single {α : Type} {l : List α} {key : α → ℕ}
    (hnodup : (l.map key).Nodup) (f g : α → ℚ) {a : α} (ha : a ∈ l)
    (hother : ∀ x ∈ l, key x ≠ key a → g x = f x) :
    (l.map g).sum = (l.map f).sum + (g a - f a) := by
  induction l with
  | nil => cases ha
  | cons b t ih =>
    have hnd : key b ∉ t.map key ∧ (t.map key).Nodup := by
      have h2 := hnodup
      rw [List.map_cons, List.nodup_cons] at h2
      exact h2
    rw [List.map_cons, List.map_cons, List.sum_cons, List.sum_cons]
    rcases List.mem_cons.mp ha with rfl | hat
    · have ht : ∀ x ∈ t, g x = f x := by
        intro x hx
        apply hother x (List.mem_cons_of_mem _ hx)
        intro hkey
        exact hnd.1 (hkey ▸ List.mem_map_of_mem key hx)
      rw [List.map_congr_left ht]
      ring
    · have hb : g b = f b := by
        apply hother b (List.mem_cons_self _ _)
        intro hkey
        exact hnd.1 (hkey ▸ List.mem_map_of_mem key hat)
      have := ih hnd.2 hat
        (fun x hx hk => hother x (List.mem_cons_of_mem _ hx) hk)
      rw [hb, this]
      ring

theorem txnSum_append (ts : List WalletTransaction) (t : WalletTransaction) (uid : ℕ) :
    txnSum (ts ++ [t]) uid = txnSum ts uid + (if t.user_id == uid then t.amount else 0) := by
  unfold txnSum
  rw [List.filter_append]
  by_cases h : t.user_id == uid <;> simp [h]

theorem hasCommissionTxn_append (ts : List WalletTransaction) (t : WalletTransaction) (rid : ℕ) :
    hasCommissionTxn (ts ++ [t]) rid = (hasCommissionTxn ts rid || isCommFor rid t) := by
  simp [hasCommissionTxn, List.any_append]

theorem settledLabor_append_noncomm (rs : List ServiceRequest) (ts : List WalletTransaction)
    (t : WalletTransaction) (uid : ℕ) (h : ∀ rid, isCommFor rid t = false) :
    settledLabor rs (ts ++ [t]) uid = settledLabor rs ts uid := by
  unfold settledLabor
  congr 1
  congr 1
  apply List.filter_congr
  intro r _
  simp [hasCommissionTxn_append, h]

theorem updateReq_map_ids (db : DB) (rid : ℕ) (f : ServiceRequest → ServiceRequest)
    (hf : ∀ r, (f r).id = r.id) :
    ((updateReq db rid f).requests.map (·.id)) = db.requests.map (·.id) := by
  simp only [updateReq_requests, List.map_map]
  apply List.map_congr_left
  intro r _
  by_cases h : r.id = rid <;> simp [h, hf]

theorem updateProfile_map_uids (db : DB) (uid : ℕ) (f : MechanicProfile → MechanicProfile)
    (hf : ∀ p, (f p).user_id = p.user_id) :
    ((updateProfile db uid f).profiles.map (·.user_id)) = db.profiles.map (·.user_id) := by
  simp only [updateProfile_profiles, List.map_map]
  apply List.map_congr_left
  intro p _
  by_cases h : p.user_id = uid <;> simp [h, hf]

/-- Record-eta for a no-op wallet write. -/
theorem walletWrite_eta (p : MechanicProfile) :
    { p with wallet_balance := p.wallet_balance } = p := rfl

/-! ## Invariant preservation -/

/-- The invariant is preserved by an `update ... eq('id', rid)` on
`service_requests` that keeps ids and mechanic assignment, does not touch the
labor cost or status of a settled request, and keeps confirmed requests
priced. -/
theorem inv_updateReq (db : DB) (rid : ℕ) (f : ServiceRequest → ServiceRequest) (hinv : Inv db)
    (hf_id : ∀ r, (f r).id = r.id)
    (hf_mech : ∀ r, (f r).mechanic_id = r.mechanic_id)
    (hsettled : ∀ r ∈ db.requests, r.id = rid → hasCommissionTxn db.transactions r.id = true →
      (f r).labor_cost = r.labor_cost ∧ (f r).status = r.status)
    (hconf : ∀ r ∈ db.requests, r.id = rid → confirmedPriced r → confirmedPriced (f r)) :
    Inv (updateReq db rid f) := by
  have hg_id : ∀ r : ServiceRequest, (if r.id == rid then f r else r).id = r.id := by
    intro r
    by_cases h : r.id = rid <;> simp [h, hf_id]
  have hg_mech : ∀ r : ServiceRequest,
      (if r.id == rid then f r else r).mechanic_id = r.mechanic_id := by
    intro r
    by_cases h : r.id = rid <;> simp [h, hf_mech]
  refine ⟨?_, ?_, ?_, ?_, ?_, ?_, ?_, ?_, ?_⟩
  · intro r' hr'
    rcases List.mem_map.mp hr' with ⟨r, hr, rfl⟩
    rw [updateReq_nextId, hg_id]
    exact hinv.ids_lt r hr
  · rw [updateReq_map_ids db rid f hf_id]
    exact hinv.ids_nodup
  · exact hinv.uids_nodup
  · exact hinv.txn_user_profile
  · intro t ht htype
    rcases hinv.comm_ref t ht htype with ⟨r, hr, href, huser⟩
    refine ⟨if r.id == rid then f r else r, List.mem_map_of_mem _ hr, ?_, ?_⟩
    · rw [hg_id]; exact href
    · rw [hg_mech]; exact huser
  · intro r' hr' hsett
    rcases List.mem_map.mp hr' with ⟨r, hr, rfl⟩
    rw [updateReq_transactions] at hsett
    rw [hg_id] at hsett
    have hco := hinv.settled_completed r hr hsett
    by_cases h : r.id = rid
    · have hst := (hsettled r hr h hsett).2
      simp only [h, beq_self_eq_true, if_true]
      rw [hst]
      exact hco
    · simp only [beq_iff_eq, h, if_false]
      exact hco
  · exact hinv.comm_unique
  · intro r' hr'
    rcases List.mem_map.mp hr' with ⟨r, hr, rfl⟩
    by_cases h : r.id = rid
    · simp only [h, beq_self_eq_true, if_true]
      exact hconf r hr h (hinv.confirmed_fields r hr)
    · simp only [beq_iff_eq, h, if_false]
      exact hinv.confirmed_fields r hr
  · intro p hp
    rw [updateReq_profiles] at hp
    have hbase := hinv.balance_eq p hp
    rw [updateReq_transactions]
    have hlab : settledLaborSum (updateReq db rid f) p.user_id =
        settledLaborSum db p.user_id := by
      unfold settledLaborSum
      rw [updateReq_transactions, updateReq_requests,
        settledLabor_eq_sum, settledLabor_eq_sum, List.map_map]
      apply congrArg
      apply List.map_congr_left
      intro r hr
      unfold settledContribution
      simp only [Function.comp_apply, hg_id, hg_mech]
      by_cases hmu : (r.mechanic_id == p.user_id) = true
      · by_cases hcm : hasCommissionTxn db.transactions r.id = true
        · have hglab : (if r.id = rid then f r else r).labor_cost = r.labor_cost := by
            by_cases h : r.id = rid
            · simp only [h, if_true]
              exact (hsettled r hr h hcm).1
            · simp [h]
          simp [hmu, hcm, hglab]
        · simp [hmu, hcm]
      · simp [hmu]
    rw [hlab, hbase]

/-- The invariant is preserved by a `mechanic_profiles` update that keeps
`user_id` and `wallet_balance` (availability toggles, verification approval,
rating writes). -/
theorem inv_updateProfile_keep (db : DB) (uid : ℕ) (f : MechanicProfile → MechanicProfile)
    (hinv : Inv db) (hf_user : ∀ p, (f p).user_id = p.user_id)
    (hf_bal : ∀ p, (f p).wallet_balance = p.wallet_balance) :
    Inv (updateProfile db uid f) := by
  have hg_user : ∀ p : MechanicProfile,
      (if p.user_id == uid then f p else p).user_id = p.user_id := by
    intro p
    by_cases h : p.user_id = uid <;> simp [h, hf_user]
  have hg_bal : ∀ p : MechanicProfile,
      (if p.user_id == uid then f p else p).wallet_balance = p.wallet_balance := by
    intro p
    by_cases h : p.user_id = uid <;> simp [h, hf_bal]
  refine ⟨hinv.ids_lt, hinv.ids_nodup, ?_, ?_, hinv.comm_ref, hinv.settled_completed,
    hinv.comm_unique, hinv.confirmed_fields, ?_⟩
  · rw [updateProfile_map_uids db uid f hf_user]
    exact hinv.uids_nodup
  · intro t ht
    rcases hinv.txn_user_profile t ht with ⟨p, hp, huser⟩
    refine ⟨if p.user_id == uid then f p else p, List.mem_map_of_mem _ hp, ?_⟩
    rw [hg_user]; exact huser
  · intro p' hp'
    rcases List.mem_map.mp hp' with ⟨p, hp, rfl⟩
    rw [hg_user, hg_bal]
    have : settledLaborSum (updateProfile db uid f) p.user_id = settledLaborSum db p.user_id := rfl
    rw [updateProfile_transactions, this]
    exact hinv.balance_eq p hp

theorem isCommFor_commTxn_self (mechId rid : ℕ) (c : ℚ) :
    isCommFor rid (commTxn mechId rid c) = true := by
  simp [isCommFor, commTxn]

theorem isCommFor_commTxn_other (mechId rid : ℕ) (c : ℚ) (rid2 : ℕ) (h : rid2 ≠ rid) :
    isCommFor rid2 (commTxn mechId rid c) = false := by
  simp [isCommFor, commTxn]
  exact Ne.symm h

/-- The invariant is preserved by the settlement block whenever the settled
request exists, is completed, is assigned to the credited mechanic, and stores
the labor cost being settled. -/
theorem inv_settleCommission (db : DB) (rid mechId : ℕ) (laborCost : ℚ) (hinv : Inv db)
    (r0 : ServiceRequest) (hr0 : r0 ∈ db.requests) (hr0id : r0.id = rid)
    (hr0mech : r0.mechanic_id = mechId) (hr0labor : r0.labor_cost = some laborCost)
    (hr0status : r0.status = .completed) :
    Inv (settleCommission db rid mechId laborCost) := by
  unfold settleCommission
  by_cases hc : hasCommissionTxn db.transactions rid = true
  · simp only [hc, if_true]
    exact hinv
  · simp only [hc, if_false, Bool.false_eq_true]
    rcases hp : findProfile db mechId with _ | p0
    · exact hinv
    · have huser0 : p0.user_id = mechId := findProfile_uid db mechId p0 hp
      have hfB_user : ∀ p : MechanicProfile,
          ((fun q : MechanicProfile => { q with wallet_balance :=
              q.wallet_balance + (laborCost - laborCost * 0.15) }) p).user_id = p.user_id :=
        fun p => rfl
      have hg_user : ∀ p : MechanicProfile,
          (if p.user_id == mechId then
            { p with wallet_balance := p.wallet_balance + (laborCost - laborCost * 0.15) }
          else p).user_id = p.user_id := by
        intro p
        by_cases h : p.user_id = mechId <;> simp [h]
      refine ⟨?_, ?_, ?_, ?_, ?_, ?_, ?_, ?_, ?_⟩
      · simp only [insertTxn_requests, updateProfile_requests, insertTxn_nextId,
          updateProfile_nextId]
        exact hinv.ids_lt
      · simp only [insertTxn_requests, updateProfile_requests]
        exact hinv.ids_nodup
      · simp only [insertTxn_profiles]
        rw [updateProfile_map_uids db mechId _ hfB_user]
        exact hinv.uids_nodup
      · simp only [insertTxn_transactions, updateProfile_transactions, insertTxn_profiles,
          updateProfile_profiles]
        intro t1 ht1
        rcases List.mem_append.mp ht1 with h1 | h1
        · rcases hinv.txn_user_profile t1 h1 with ⟨p1, hp1, hu⟩
          refine ⟨_, List.mem_map_of_mem _ hp1, ?_⟩
          rw [hg_user]
          exact hu
        · have ht : t1 = commTxn mechId rid (laborCost * 0.15) := by simpa using h1
          subst ht
          refine ⟨_, List.mem_map_of_mem _ (findProfile_mem db mechId p0 hp), ?_⟩
          rw [hg_user, huser0]
          rfl
      · simp only [insertTxn_transactions, updateProfile_transactions, insertTxn_requests,
          updateProfile_requests]
        intro t1 ht1 htype
        rcases List.mem_append.mp ht1 with h1 | h1
        · exact hinv.comm_ref t1 h1 htype
        · have ht : t1 = commTxn mechId rid (laborCost * 0.15) := by simpa using h1
          subst ht
          refine ⟨r0, hr0, ?_, ?_⟩
          · rw [hr0id]; rfl
          · rw [hr0mech]; rfl
      · simp only [insertTxn_transactions, updateProfile_transactions, insertTxn_requests,
          updateProfile_requests]
        intro r hr hsett
        rw [hasCommissionTxn_append] at hsett
        simp only [Bool.or_eq_true] at hsett
        rcases hsett with h1 | h1
        · exact hinv.settled_completed r hr h1
        · have hid : r.id = rid := by
            by_contra hne
            rw [isCommFor_commTxn_other mechId rid _ r.id hne] at h1
            exact absurd h1 (by simp)
          have : r = r0 := nodup_key_eq hinv.ids_nodup hr hr0 (by rw [hid, hr0id])
          rw [this]
          exact hr0status
      · simp only [insertTxn_transactions, updateProfile_transactions]
        intro rid2
        rw [List.filter_append]
        by_cases h : rid2 = rid
        · subst h
          have hfil : db.transactions.filter (isCommFor rid2) = [] := by
            rw [List.filter_eq_nil_iff]
            exact List.any_eq_false.mp (by simpa [hasCommissionTxn] using hc)
          rw [hfil]
          simp [isCommFor_commTxn_self]
        · rw [List.length_append]
          have : ([commTxn mechId rid (laborCost * 0.15)].filter (isCommFor rid2)) = [] := by
            simp [isCommFor_commTxn_other mechId rid _ rid2 h]
          rw [this]
          simpa using hinv.comm_unique rid2
      · simp only [insertTxn_requests, updateProfile_requests]
        exact hinv.confirmed_fields
      · simp only [insertTxn_profiles, updateProfile_profiles, insertTxn_transactions,
          updateProfile_transactions]
        intro p' hp'
        rcases List.mem_map.mp hp' with ⟨q, hq, rfl⟩
        have hbase := hinv.balance_eq q hq
        have hsls : ∀ uid : ℕ, settledLaborSum (insertTxn (updateProfile db mechId
            (fun p : MechanicProfile => { p with wallet_balance :=
              p.wallet_balance + (laborCost - laborCost * 0.15) }))
            (commTxn mechId rid (laborCost * 0.15))) uid =
            settledLabor db.requests
              (db.transactions ++ [commTxn mechId rid (laborCost * 0.15)]) uid :=
          fun uid => rfl
        by_cases hqu : q.user_id = mechId
        · have hpq : q = p0 :=
            nodup_key_eq hinv.uids_nodup hq (findProfile_mem db mechId p0 hp)
              (by rw [hqu, huser0])
          simp only [hqu, beq_self_eq_true, if_true]
          have htx : txnSum (db.transactions ++ [commTxn mechId rid (laborCost * 0.15)]) mechId =
              txnSum db.transactions mechId + (-(laborCost * 0.15)) := by
            rw [txnSum_append]
            simp [commTxn]
          have hsl : settledLabor db.requests
              (db.transactions ++ [commTxn mechId rid (laborCost * 0.15)]) mechId =
              settledLabor db.requests db.transactions mechId + laborCost := by
            rw [settledLabor_eq_sum, settledLabor_eq_sum]
            have hstep := @sum_map_congr_single _ _ (·.id) hinv.ids_nodup
              (settledContribution db.transactions mechId)
              (settledContribution
                (db.transactions ++ [commTxn mechId rid (laborCost * 0.15)]) mechId)
              _ hr0 ?_
            · rw [hstep]
              have hf0 : settledContribution db.transactions mechId r0 = 0 := by
                unfold settledContribution
                rw [hr0id]
                simp [eq_false_of_ne_true hc]
              have hg0 : settledContribution
                  (db.transactions ++ [commTxn mechId rid (laborCost * 0.15)]) mechId r0 =
                  laborCost := by
                unfold settledContribution
                rw [hasCommissionTxn_append, hr0id, isCommFor_commTxn_self]
                simp [hr0mech, hr0labor]
              rw [hf0, hg0]
              ring
            · intro x hx hkey
              unfold settledContribution
              rw [hasCommissionTxn_append,
                isCommFor_commTxn_other mechId rid _ x.id (by rw [← hr0id] at *; exact hkey)]
              simp
          rw [hsls, htx, hsl]
          have hbase2 : q.wallet_balance = txnSum db.transactions mechId +
              settledLabor db.requests db.transactions mechId := by
            rw [← hqu]
            exact hbase
          rw [hbase2]
          ring
        · simp only [beq_iff_eq, hqu, if_false]
          have htx : txnSum (db.transactions ++ [commTxn mechId rid (laborCost * 0.15)])
              q.user_id = txnSum db.transactions q.user_id := by
            rw [txnSum_append]
            have : (commTxn mechId rid (laborCost * 0.15)).user_id ≠ q.user_id := by
              intro hh
              exact hqu (by rw [← hh]; rfl)
            simp [this]
          have hsl : settledLabor db.requests
              (db.transactions ++ [commTxn mechId rid (laborCost * 0.15)]) q.user_id =
              settledLabor db.requests db.transactions q.user_id := by
            rw [settledLabor_eq_sum, settledLabor_eq_sum]
            apply congrArg
            apply List.map_congr_left
            intro x hx
            unfold settledContribution
            by_cases hxm : (x.mechanic_id == q.user_id) = true
            · have hxid : x.id ≠ rid := by
                intro hxe
                have : x = r0 := nodup_key_eq hinv.ids_nodup hx hr0 (by rw [hxe, hr0id])
                apply hqu
                rw [← beq_iff_eq.mp hxm, this, hr0mech]
              rw [hasCommissionTxn_append, isCommFor_commTxn_other mechId rid _ x.id hxid]
              simp
            · simp [hxm]
          rw [hsls, hsl, htx]
          exact hbase


/-- Fresh-profile insertion preserves the invariant: the new wallet starts at
zero and the fresh user has no transactions and no settled requests. -/
theorem inv_registerMechanic (db : DB) (uid : ℕ) (hinv : Inv db) :
    Inv (registerMechanic db uid).1 := by
  unfold registerMechanic
  rcases hp : findProfile db uid with _ | p
  · have hfresh : ∀ p ∈ db.profiles, p.user_id ≠ uid := findProfile_none db uid hp
    refine ⟨hinv.ids_lt, hinv.ids_nodup, ?_, ?_, hinv.comm_ref, hinv.settled_completed,
      hinv.comm_unique, hinv.confirmed_fields, ?_⟩
    · simp only [List.map_append, List.map_cons, List.map_nil, List.nodup_append]
      refine ⟨hinv.uids_nodup, by simp, ?_⟩
      intro u hu hu2
      simp only [List.mem_singleton] at hu2
      rcases List.mem_map.mp hu with ⟨p, hp2, rfl⟩
      exact hfresh p hp2 hu2
    · intro t ht
      rcases hinv.txn_user_profile t ht with ⟨p, hp2, hu⟩
      exact ⟨p, List.mem_append_left _ hp2, hu⟩
    · intro p hp2
      rcases List.mem_append.mp hp2 with h1 | h1
      · exact hinv.balance_eq p h1
      · have hpv : p = { user_id := uid, is_available := false,
                         verification_status := "pending", wallet_balance := 0, rating := 0,
                         total_jobs := 0 } := by simpa using h1
        subst hpv
        have htx0 : txnSum db.transactions uid = 0 := by
          unfold txnSum
          have hnil : db.transactions.filter (fun t => t.user_id == uid) = [] := by
            rw [List.filter_eq_nil_iff]
            intro t ht
            rcases hinv.txn_user_profile t ht with ⟨p1, hp1, hu1⟩
            simp only [beq_iff_eq]
            intro hh
            exact hfresh p1 hp1 (by rw [hu1, hh])
          rw [hnil]
          rfl
        have hsl0 : settledLabor db.requests db.transactions uid = 0 := by
          rw [settledLabor_eq_sum]
          apply List.sum_eq_zero
          intro x hx
          rcases List.mem_map.mp hx with ⟨r, hr, rfl⟩
          unfold settledContribution
          by_cases hcm : hasCommissionTxn db.transactions r.id = true
          · rcases List.any_eq_true.mp hcm with ⟨t, ht, hfor⟩
            have hparts := hfor
            unfold isCommFor at hparts
            simp only [Bool.and_eq_true, beq_iff_eq] at hparts
            rcases hinv.comm_ref t ht hparts.2 with ⟨r1, hr1, href, huser⟩
            have hr1r : r1 = r := by
              apply nodup_key_eq hinv.ids_nodup hr1 hr
              have := href.symm.trans hparts.1.1
              simpa using this
            rcases hinv.txn_user_profile t ht with ⟨p1, hp1, hu1⟩
            have hmech : (r.mechanic_id == uid) = false := by
              simp only [beq_eq_false_iff_ne, ne_eq]
              intro hh
              apply hfresh p1 hp1
              rw [hu1, huser, hr1r, hh]
            simp [hmech]
          · simp [hcm]
        show (0 : ℚ) = txnSum db.transactions uid +
          settledLabor db.requests db.transactions uid
        rw [htx0, hsl0]
        ring
  · exact hinv

/-- The external verification approval preserves the invariant. -/
theorem inv_envApproveMechanic (db : DB) (uid : ℕ) (hinv : Inv db) :
    Inv (envApproveMechanic db uid) :=
  inv_updateProfile_keep db uid _ hinv (fun _ => rfl) (fun _ => rfl)

/-- Availability toggling preserves the invariant. -/
theorem inv_toggleAvailability (db : DB) (uid : ℕ) (hinv : Inv db) :
    Inv (toggleAvailability db uid).1 := by
  unfold toggleAvailability
  rcases hp : findProfile db uid with _ | p
  · exact hinv
  · exact inv_updateProfile_keep db uid _ hinv (fun _ => rfl) (fun _ => rfl)

/-- Vehicle registration preserves the invariant. -/
theorem inv_addVehicle (db : DB) (vid cid : ℕ) (hinv : Inv db) :
    Inv (addVehicle db vid cid) :=
  ⟨hinv.ids_lt, hinv.ids_nodup, hinv.uids_nodup, hinv.txn_user_profile, hinv.comm_ref,
    hinv.settled_completed, hinv.comm_unique, hinv.confirmed_fields, hinv.balance_eq⟩

/-- The rating-aggregation write preserves the invariant. -/
theorem inv_updateMechanicRating (db : DB) (mechId : ℕ) (hinv : Inv db) :
    Inv (updateMechanicRating db mechId) := by
  unfold updateMechanicRating
  by_cases h : (db.requests.filter
      (fun r => r.mechanic_id == mechId && r.customer_rating.isSome)).length = 0
  · simp only [h, if_true]
    exact hinv
  · simp only [h, if_false]
    exact inv_updateProfile_keep db mechId _ hinv (fun _ => rfl) (fun _ => rfl)

/-- Creation of a fresh `pending` request preserves the invariant. -/
theorem inv_createServiceRequest (db : DB) (cid mid vid cat : ℕ) (pb : String)
    (hinv : Inv db) : Inv (createServiceRequest db cid mid vid cat pb).1 := by
  unfold createServiceRequest
  rcases hp : findProfile db mid with _ | mp
  · exact hinv
  · dsimp only
    by_cases hv : mp.verification_status ≠ "approved"
    · rw [if_pos hv]
      exact hinv
    · rw [if_neg hv]
      by_cases ha : (!mp.is_available) = true
      · rw [if_pos ha]
        exact hinv
      · rw [if_neg ha]
        by_cases hveh : (db.vehicles.find? (fun v => v.1 == vid && v.2 == cid)).isNone = true
        · rw [if_pos hveh]
          exact hinv
        · rw [if_neg hveh]
          have hfreshid : ∀ r ∈ db.requests, r.id ≠ db.nextId :=
            fun r hr => Nat.ne_of_lt (hinv.ids_lt r hr)
          have hnocomm : hasCommissionTxn db.transactions db.nextId = false := by
            rw [← Bool.not_eq_true]
            intro hcm
            rcases List.any_eq_true.mp hcm with ⟨t, ht, hfor⟩
            have hparts := hfor
            unfold isCommFor at hparts
            simp only [Bool.and_eq_true, beq_iff_eq] at hparts
            rcases hinv.comm_ref t ht hparts.2 with ⟨r1, hr1, href, _⟩
            have h5 : some r1.id = some db.nextId := href.symm.trans hparts.1.1
            exact hfreshid r1 hr1 (by simpa using h5)
          refine ⟨?_, ?_, hinv.uids_nodup, hinv.txn_user_profile, ?_, ?_, hinv.comm_unique,
            ?_, ?_⟩
          · intro r hr
            rcases List.mem_append.mp hr with h1 | h1
            · exact Nat.lt_succ_of_lt (hinv.ids_lt r h1)
            · rw [List.mem_singleton.mp h1]
              exact Nat.lt_succ_self _
          · simp only [List.map_append, List.map_cons, List.map_nil, List.nodup_append]
            refine ⟨hinv.ids_nodup, List.nodup_singleton _, ?_⟩
            intro i hi hi2
            simp only [List.mem_singleton] at hi2
            rcases List.mem_map.mp hi with ⟨r, hr, rfl⟩
            exact hfreshid r hr hi2
          · intro t ht htype
            rcases hinv.comm_ref t ht htype with ⟨r1, hr1, href, huser⟩
            exact ⟨r1, List.mem_append_left _ hr1, href, huser⟩
          · intro r hr hsett
            rcases List.mem_append.mp hr with h1 | h1
            · exact hinv.settled_completed r h1 hsett
            · rw [List.mem_singleton.mp h1] at hsett
              rw [show (newRequest db cid mid vid cat pb).id = db.nextId from rfl,
                hnocomm] at hsett
              exact absurd hsett (by simp)
          · intro r hr hcc
            rcases List.mem_append.mp hr with h1 | h1
            · exact hinv.confirmed_fields r h1 hcc
            · rw [List.mem_singleton.mp h1] at hcc
              exact absurd hcc (by simp [newRequest])
          · intro p hp2
            have hbase := hinv.balance_eq p hp2
            show p.wallet_balance = txnSum db.transactions p.user_id +
              settledLabor (db.requests ++ [newRequest db cid mid vid cat pb])
                db.transactions p.user_id
            rw [settledLabor_eq_sum, List.map_append, List.sum_append]
            have hz : settledContribution db.transactions p.user_id
                (newRequest db cid mid vid cat pb) = 0 := by
              unfold settledContribution
              rw [show (newRequest db cid mid vid cat pb).id = db.nextId from rfl, hnocomm]
              simp
            simp only [List.map_cons, List.map_nil, List.sum_cons, List.sum_nil, hz]
            rw [← settledLabor_eq_sum]
            simpa using hbase

/-- Specialization of `inv_updateReq` when the targeted request was looked up
and its status guard excludes `completed` (hence it is unsettled). -/
theorem inv_updateReq_guarded (db : DB) (rid : ℕ) (f : ServiceRequest → ServiceRequest)
    (hinv : Inv db) (r0 : ServiceRequest) (h0 : findReq db rid = some r0)
    (h0stat : r0.status ≠ .completed)
    (hf_id : ∀ r, (f r).id = r.id)
    (hf_mech : ∀ r, (f r).mechanic_id = r.mechanic_id)
    (hconf : ∀ r ∈ db.requests, r.id = rid → confirmedPriced r → confirmedPriced (f r)) :
    Inv (updateReq db rid f) := by
  apply inv_updateReq db rid f hinv hf_id hf_mech
  · intro r hr hid hcm
    have hr0 : r = r0 := mem_eq_findReq db rid r0 r hinv.ids_nodup h0 hr hid
    have hcompleted := hinv.settled_completed r hr hcm
    rw [hr0] at hcompleted
    exact absurd hcompleted h0stat
  · exact hconf

/-- Accepting a request preserves the invariant. -/
theorem inv_acceptServiceRequest (db : DB) (uid rid : ℕ) (hinv : Inv db) :
    Inv (acceptServiceRequest db uid rid).1 := by
  unfold acceptServiceRequest
  rcases hp : findProfile db uid with _ | mp
  · exact hinv
  · dsimp only
    by_cases ha : (!mp.is_available) = true
    · rw [if_pos ha]
      exact hinv
    · rw [if_neg ha]
      rcases hr : findReq db rid with _ | r0
      · exact hinv
      · dsimp only
        by_cases hm : r0.mechanic_id ≠ uid
        · rw [if_pos hm]
          exact hinv
        · rw [if_neg hm]
          by_cases hs : r0.status ≠ .pending
          · rw [if_pos hs]
            exact hinv
          · rw [if_neg hs]
            have hs2 : r0.status = .pending := not_not.mp hs
            exact inv_updateReq_guarded db rid _ hinv r0 hr (by simp [hs2])
              (fun r => rfl) (fun r => rfl) (fun r _ _ hcp => hcp)

/-- Declining a request preserves the invariant. -/
theorem inv_declineServiceRequest (db : DB) (uid rid : ℕ) (hinv : Inv db) :
    Inv (declineServiceRequest db uid rid).1 := by
  unfold declineServiceRequest
  rcases hr : findReq db rid with _ | r0
  · exact hinv
  · dsimp only
    by_cases hm : r0.mechanic_id ≠ uid
    · rw [if_pos hm]
      exact hinv
    · rw [if_neg hm]
      by_cases hs : r0.status ≠ .pending
      · rw [if_pos hs]
        exact hinv
      · rw [if_neg hs]
        have hs2 : r0.status = .pending := not_not.mp hs
        exact inv_updateReq_guarded db rid _ hinv r0 hr (by simp [hs2])
          (fun r => rfl) (fun r => rfl) (fun r _ _ hcp => hcp)

/-- Marking arrival preserves the invariant. -/
theorem inv_markArrived (db : DB) (uid rid now : ℕ) (hinv : Inv db) :
    Inv (markArrived db uid rid now).1 := by
  unfold markArrived
  rcases hr : findReq db rid with _ | r0
  · exact hinv
  · dsimp only
    by_cases hm : r0.mechanic_id ≠ uid
    · rw [if_pos hm]
      exact hinv
    · rw [if_neg hm]
      by_cases hs : r0.status ≠ .accepted
      · rw [if_pos hs]
        exact hinv
      · rw [if_neg hs]
        have hs2 : r0.status = .accepted := not_not.mp hs
        exact inv_updateReq_guarded db rid _ hinv r0 hr (by simp [hs2])
          (fun r => rfl) (fun r => rfl) (fun r _ _ hcp => hcp)

/-- Customer cancellation preserves the invariant. -/
theorem inv_cancelServiceRequest (db : DB) (uid rid : ℕ) (hinv : Inv db) :
    Inv (cancelServiceRequest db uid rid).1 := by
  unfold cancelServiceRequest
  rcases hr : findReq db rid with _ | r0
  · exact hinv
  · dsimp only
    by_cases hm : r0.customer_id ≠ uid
    · rw [if_pos hm]
      exact hinv
    · rw [if_neg hm]
      by_cases hs : r0.status ≠ .pending ∧ r0.status ≠ .accepted
      · rw [if_pos hs]
        exact hinv
      · rw [if_neg hs]
        have hs2 : r0.status = .pending ∨ r0.status = .accepted := by
          rcases not_and_or.mp hs with h | h
          · exact Or.inl (not_not.mp h)
          · exact Or.inr (not_not.mp h)
        exact inv_updateReq_guarded db rid _ hinv r0 hr
          (by rcases hs2 with h | h <;> simp [h]) (fun r => rfl) (fun r => rfl)
          (fun r _ _ hcp => hcp)

/-- Withdrawal preserves the invariant, both when the ledger insert succeeds
and when it fails (compensating write). -/
theorem inv_withdrawFromWallet (db : DB) (uid : ℕ) (amount : JVal) (bank : Option String)
    (ok : Bool) (hinv : Inv db) : Inv (withdrawFromWallet db uid amount bank ok).1 := by
  unfold withdrawFromWallet
  by_cases ht : (!truthy amount) = true
  · rw [if_pos ht]
    exact hinv
  · rw [if_neg ht]
    rcases hpf : parseFloat amount with _ | A
    · exact hinv
    · dsimp only
      by_cases hA : A ≤ 0
      · rw [if_pos hA]
        exact hinv
      · rw [if_neg hA]
        rcases hp : findProfile db uid with _ | p
        · exact hinv
        · dsimp only
          by_cases hb : p.wallet_balance < A
          · rw [if_pos hb]
            exact hinv
          · rw [if_neg hb]
            have hpuid : p.user_id = uid := findProfile_uid db uid p hp
            by_cases hok : ok = true
            · rw [if_pos hok]
              have hwt : ∀ rid2 : ℕ, isCommFor rid2 (withdrawalTxn uid A bank) = false := by
                intro rid2
                simp [isCommFor, withdrawalTxn]
              have hg_user : ∀ q : MechanicProfile,
                  (if q.user_id == uid then
                    { q with wallet_balance := p.wallet_balance - A } else q).user_id =
                  q.user_id := by
                intro q
                by_cases h : q.user_id = uid <;> simp [h]
              refine ⟨?_, ?_, ?_, ?_, ?_, ?_, ?_, ?_, ?_⟩
              · simp only [insertTxn_requests, updateProfile_requests, insertTxn_nextId,
                  updateProfile_nextId]
                exact hinv.ids_lt
              · simp only [insertTxn_requests, updateProfile_requests]
                exact hinv.ids_nodup
              · simp only [insertTxn_profiles]
                have hfB : ∀ q : MechanicProfile, ((fun q1 : MechanicProfile =>
                    { q1 with wallet_balance := p.wallet_balance - A }) q).user_id =
                    q.user_id := fun q => rfl
                rw [updateProfile_map_uids db uid _ hfB]
                exact hinv.uids_nodup
              · simp only [insertTxn_transactions, updateProfile_transactions,
                  insertTxn_profiles, updateProfile_profiles]
                intro t1 ht1
                rcases List.mem_append.mp ht1 with h1 | h1
                · rcases hinv.txn_user_profile t1 h1 with ⟨p1, hp1, hu⟩
                  refine ⟨_, List.mem_map_of_mem _ hp1, ?_⟩
                  rw [hg_user]
                  exact hu
                · have ht2 := List.mem_singleton.mp h1
                  subst ht2
                  refine ⟨_, List.mem_map_of_mem _ (findProfile_mem db uid p hp), ?_⟩
                  rw [hg_user, hpuid]
                  rfl
              · simp only [insertTxn_transactions, updateProfile_transactions,
                  insertTxn_requests, updateProfile_requests]
                intro t1 ht1 htype
                rcases List.mem_append.mp ht1 with h1 | h1
                · exact hinv.comm_ref t1 h1 htype
                · have ht2 := List.mem_singleton.mp h1
                  rw [ht2] at htype
                  exact absurd htype (by simp [withdrawalTxn])
              · simp only [insertTxn_transactions, updateProfile_transactions,
                  insertTxn_requests, updateProfile_requests]
                intro r hr hsett
                rw [hasCommissionTxn_append] at hsett
                simp only [Bool.or_eq_true] at hsett
                rcases hsett with h1 | h1
                · exact hinv.settled_completed r hr h1
                · rw [hwt r.id] at h1
                  exact absurd h1 (by simp)
              · simp only [insertTxn_transactions, updateProfile_transactions]
                intro rid2
                rw [List.filter_append]
                have hnil : List.filter (isCommFor rid2) [withdrawalTxn uid A bank] = [] := by
                  simp [hwt rid2]
                rw [hnil]
                simpa using hinv.comm_unique rid2
              · simp only [insertTxn_requests, updateProfile_requests]
                exact hinv.confirmed_fields
              · simp only [insertTxn_profiles, updateProfile_profiles, insertTxn_transactions,
                  updateProfile_transactions]
                intro q2 hq2
                rcases List.mem_map.mp hq2 with ⟨q, hq, rfl⟩
                have hbase := hinv.balance_eq q hq
                have hslq : ∀ u : ℕ, settledLabor db.requests
                    (db.transactions ++ [withdrawalTxn uid A bank]) u =
                    settledLabor db.requests db.transactions u :=
                  fun u => settledLabor_append_noncomm _ _ _ _ hwt
                by_cases hqu : q.user_id = uid
                · have hpq : q = p :=
                    nodup_key_eq hinv.uids_nodup hq (findProfile_mem db uid p hp)
                      (by rw [hqu, hpuid])
                  simp only [hqu, beq_self_eq_true, if_true]
                  show p.wallet_balance - A =
                    txnSum (db.transactions ++ [withdrawalTxn uid A bank]) uid +
                    settledLabor db.requests (db.transactions ++ [withdrawalTxn uid A bank])
                      uid
                  rw [txnSum_append, hslq]
                  have hamt : (if (withdrawalTxn uid A bank).user_id == uid then
                      (withdrawalTxn uid A bank).amount else 0) = -A := by
                    simp [withdrawalTxn]
                  rw [hamt]
                  have hbase2 : p.wallet_balance = txnSum db.transactions uid +
                      settledLabor db.requests db.transactions uid := by
                    rw [← hpuid]
                    rw [hpq] at hbase
                    exact hbase
                  rw [hbase2]
                  ring
                · simp only [beq_iff_eq, hqu, if_false]
                  show q.wallet_balance =
                    txnSum (db.transactions ++ [withdrawalTxn uid A bank]) q.user_id +
                    settledLabor db.requests (db.transactions ++ [withdrawalTxn uid A bank])
                      q.user_id
                  rw [txnSum_append, hslq]
                  have hne : ((withdrawalTxn uid A bank).user_id == q.user_id) = false := by
                    simp only [beq_eq_false_iff_ne, ne_eq, withdrawalTxn]
                    exact fun hh => hqu hh.symm
                  rw [hne]
                  simpa using hbase
            · rw [if_neg hok]
              have hdbeq : updateProfile (updateProfile db uid
                  (fun q => { q with wallet_balance := p.wallet_balance - A })) uid
                  (fun q => { q with wallet_balance := p.wallet_balance }) = db := by
                have hprof : (updateProfile (updateProfile db uid
                    (fun q => { q with wallet_balance := p.wallet_balance - A })) uid
                    (fun q => { q with wallet_balance := p.wallet_balance })).profiles =
                    db.profiles := by
                  simp only [updateProfile_profiles, List.map_map]
                  have hid : ∀ q ∈ db.profiles,
                      ((fun q1 : MechanicProfile =>
                          if q1.user_id == uid then
                            { q1 with wallet_balance := p.wallet_balance } else q1) ∘
                        (fun q1 : MechanicProfile =>
                          if q1.user_id == uid then
                            { q1 with wallet_balance := p.wallet_balance - A } else q1)) q =
                      q := by
                    intro q hq
                    by_cases hqu : q.user_id = uid
                    · have hpq : q = p :=
                        nodup_key_eq hinv.uids_nodup hq (findProfile_mem db uid p hp)
                          (by rw [hqu, findProfile_uid db uid p hp])
                      simp only [Function.comp_apply, hqu, beq_self_eq_true, if_true]
                      rw [hpq, ← hpuid]
                    · simp [Function.comp_apply, hqu]
                  rw [List.map_congr_left hid]
                  exact List.map_id _
                rw [show updateProfile (updateProfile db uid
                    (fun q => { q with wallet_balance := p.wallet_balance - A })) uid
                    (fun q => { q with wallet_balance := p.wallet_balance }) =
                    { db with profiles := (updateProfile (updateProfile db uid
                      (fun q => { q with wallet_balance := p.wallet_balance - A })) uid
                      (fun q => { q with wallet_balance := p.wallet_balance })).profiles }
                  from rfl, hprof]
              rw [hdbeq]
              exact hinv

theorem findReq_updateReq_self (db : DB) (rid : ℕ) (f : ServiceRequest → ServiceRequest)
    (hf : ∀ r, (f r).id = r.id) (r0 : ServiceRequest) (h0 : findReq db rid = some r0) :
    findReq (updateReq db rid f) rid = some (f r0) := by
  rw [findReq_updateReq db rid rid f hf, h0]
  simp [Option.map_some, findReq_id db rid r0 h0]

/-- Mechanic-side completion preserves the invariant. -/
theorem inv_completeServiceRequestMechanic (db : DB) (uid rid now : ℕ) (hinv : Inv db) :
    Inv (completeServiceRequestMechanic db uid rid now).1 := by
  unfold completeServiceRequestMechanic
  rcases hr : findReq db rid with _ | r0
  · exact hinv
  · dsimp only
    by_cases hm : r0.mechanic_id ≠ uid
    · rw [if_pos hm]
      exact hinv
    · rw [if_neg hm]
      by_cases hs : r0.status ≠ .in_progress
      · rw [if_pos hs]
        exact hinv
      · rw [if_neg hs]
        have hs2 : r0.status = .in_progress := not_not.mp hs
        have hm2 : r0.mechanic_id = uid := not_not.mp hm
        have hinv1 : Inv (updateReq db rid
            (mechanicCompletionUpdate r0.customer_confirmed now)) := by
          refine inv_updateReq_guarded db rid _ hinv r0 hr ?_ ?_ ?_ ?_
          · simp [hs2]
          · intro r
            rfl
          · intro r
            rfl
          · intro r _ _ hcp hcc
            exact hcp hcc
        have hinv2 : Inv (if (r0.customer_confirmed = true ∧ optTruthy r0.labor_cost = true)
            then settleCommission
              (updateReq db rid (mechanicCompletionUpdate r0.customer_confirmed now))
              rid uid (r0.labor_cost.getD 0)
            else updateReq db rid (mechanicCompletionUpdate r0.customer_confirmed now)) := by
          by_cases hfz : (r0.customer_confirmed = true ∧ optTruthy r0.labor_cost = true)
          · rw [if_pos hfz]
            rcases hlv : r0.labor_cost with _ | L
            · exact absurd hfz.2 (by rw [hlv]; simp [optTruthy])
            · refine inv_settleCommission _ rid uid ((some L).getD 0) hinv1
                (mechanicCompletionUpdate r0.customer_confirmed now r0) ?_ ?_ ?_ ?_ ?_
              · exact findReq_mem _ rid _
                  (findReq_updateReq_self db rid
                    (mechanicCompletionUpdate r0.customer_confirmed now) (fun r => rfl) r0 hr)
              · exact findReq_id db rid r0 hr
              · exact hm2
              · show r0.labor_cost = some ((some L).getD 0)
                rw [hlv]
                simp
              · show (if r0.customer_confirmed = true then Status.completed else r0.status) =
                  Status.completed
                rw [if_pos hfz.1]
          · rw [if_neg hfz]
            exact hinv1
        exact hinv2

/-- Customer-side completion preserves the invariant. -/
theorem inv_completeServiceRequest (db : DB) (uid rid : ℕ) (m l rat : JVal)
    (rev : Option String) (now : ℕ) (hinv : Inv db) :
    Inv (completeServiceRequest db uid rid m l rat rev now).1 := by
  unfold completeServiceRequest
  by_cases hv : ¬ (truthy m = true ∧ truthy l = true ∧ truthy rat = true)
  · rw [if_pos hv]
    exact hinv
  · rw [if_neg hv]
    rcases hpm : parseFloat m with _ | M
    · exact hinv
    · rcases hpl : parseFloat l with _ | L
      · exact hinv
      · rcases hpr : parseInt rat with _ | R
        · exact hinv
        · dsimp only
          by_cases hrange : R < 1 ∨ 5 < R
          · rw [if_pos hrange]
            exact hinv
          · rw [if_neg hrange]
            rcases hr : findReq db rid with _ | r0
            · exact hinv
            · dsimp only
              by_cases hcu : r0.customer_id ≠ uid
              · rw [if_pos hcu]
                exact hinv
              · rw [if_neg hcu]
                by_cases hs : r0.status ≠ .in_progress
                · rw [if_pos hs]
                  exact hinv
                · rw [if_neg hs]
                  have hs2 : r0.status = .in_progress := not_not.mp hs
                  have hinv1 : Inv (updateReq db rid
                      (customerCompletionUpdate M L R rev r0.mechanic_confirmed now)) := by
                    refine inv_updateReq_guarded db rid _ hinv r0 hr ?_ ?_ ?_ ?_
                    · simp [hs2]
                    · intro r
                      rfl
                    · intro r
                      rfl
                    · intro r _ _ _ _
                      exact ⟨rfl, rfl, rfl, rfl⟩
                  have hinv2 : Inv (if r0.mechanic_confirmed = true then
                      settleCommission (updateReq db rid
                        (customerCompletionUpdate M L R rev r0.mechanic_confirmed now))
                        rid r0.mechanic_id L
                    else updateReq db rid
                      (customerCompletionUpdate M L R rev r0.mechanic_confirmed now)) := by
                    by_cases hf : r0.mechanic_confirmed = true
                    · rw [if_pos hf]
                      refine inv_settleCommission _ rid r0.mechanic_id L hinv1
                        (customerCompletionUpdate M L R rev r0.mechanic_confirmed now r0)
                        ?_ ?_ ?_ ?_ ?_
                      · exact findReq_mem _ rid _
                          (findReq_updateReq_self db rid
                            (customerCompletionUpdate M L R rev r0.mechanic_confirmed now)
                            (fun r => rfl) r0 hr)
                      · exact findReq_id db rid r0 hr
                      · rfl
                      · rfl
                      · show (if r0.mechanic_confirmed = true then Status.completed
                          else r0.status) = Status.completed
                        rw [if_pos hf]
                    · rw [if_neg hf]
                      exact hinv1
                  exact inv_updateMechanicRating _ r0.mechanic_id hinv2

/-- Every reachable state satisfies the invariant. -/
theorem reachable_inv (db : DB) (h : Reachable db) : Inv db := by
  unfold Reachable at h
  induction h with
  | refl =>
    refine ⟨?_, ?_, ?_, ?_, ?_, ?_, ?_, ?_, ?_⟩ <;> simp [initDB, txnSum, settledLaborSum]
  | tail hstep hlast ih =>
    cases hlast with
    | register uid => exact inv_registerMechanic _ uid ih
    | approve uid => exact inv_envApproveMechanic _ uid ih
    | toggle uid => exact inv_toggleAvailability _ uid ih
    | vehicle vid cid => exact inv_addVehicle _ vid cid ih
    | create cid mid vid cat pb => exact inv_createServiceRequest _ cid mid vid cat pb ih
    | accept uid rid => exact inv_acceptServiceRequest _ uid rid ih
    | decline uid rid => exact inv_declineServiceRequest _ uid rid ih
    | arrive uid rid now => exact inv_markArrived _ uid rid now ih
    | cancel uid rid => exact inv_cancelServiceRequest _ uid rid ih
    | completeCustomer uid rid m l rat rev now =>
      exact inv_completeServiceRequest _ uid rid m l rat rev now ih
    | completeMechanic uid rid now =>
      exact inv_completeServiceRequestMechanic _ uid rid now ih
    | withdraw uid amt bank ok => exact inv_withdrawFromWallet _ uid amt bank ok ih

/-! ## Reachability of the concrete scenario -/

theorem reachable_sdb9 : Reachable sdb9 :=
  Relation.ReflTransGen.tail
    (Relation.ReflTransGen.tail
      (Relation.ReflTransGen.tail
        (Relation.ReflTransGen.tail
          (Relation.ReflTransGen.tail
            (Relation.ReflTransGen.tail
              (Relation.ReflTransGen.tail
                (Relation.ReflTransGen.tail
                  (Relation.ReflTransGen.tail Relation.ReflTransGen.refl
                    (Step.register initDB 1))
                  (Step.approve sdb1 1))
                (Step.toggle sdb2 1))
              (Step.vehicle sdb3 7 2))
            (Step.create sdb4 2 1 7 3 "engine failure"))
          (Step.accept sdb5 1 0))
        (Step.arrive sdb6 1 0 10))
      (Step.completeCustomer sdb7 2 0 (.jnum 50) (.jnum 100) (.jnum 5) none 20))
    (Step.completeMechanic sdb8 1 0 30)

/-! ## Terminal statuses are frozen (claim C5 support) -/

/-- The call left the state unchanged and reported an error. -/
def errored (x : DB × Except Err Unit) (db : DB) : Prop :=
  x.1 = db ∧ ∃ e, x.2 = Except.error e

theorem findReq_frozen_updateReq (db : DB) (rid2 : ℕ) (f : ServiceRequest → ServiceRequest)
    (hf : ∀ r, (f r).id = r.id) (rid : ℕ) (r : ServiceRequest)
    (h : findReq db rid = some r) (hne : rid ≠ rid2) :
    findReq (updateReq db rid2 f) rid = some r := by
  rw [findReq_updateReq db rid2 rid f hf, h]
  have hb : (r.id == rid2) = false := by
    simp only [beq_eq_false_iff_ne, ne_eq]
    rw [findReq_id db rid r h]
    exact hne
  simp only [Option.map_some', hb, Bool.false_eq_true, if_false]

theorem findReq_registerMechanic (db : DB) (uid rid : ℕ) :
    findReq (registerMechanic db uid).1 rid = findReq db rid := by
  unfold registerMechanic
  rcases hp : findProfile db uid with _ | p <;> rfl

theorem findReq_toggleAvailability (db : DB) (uid rid : ℕ) :
    findReq (toggleAvailability db uid).1 rid = findReq db rid := by
  unfold toggleAvailability
  rcases hp : findProfile db uid with _ | p <;> rfl

theorem findReq_withdrawFromWallet (db : DB) (uid : ℕ) (amount : JVal)
    (bank : Option String) (ok : Bool) (rid : ℕ) :
    findReq (withdrawFromWallet db uid amount bank ok).1 rid = findReq db rid := by
  unfold withdrawFromWallet
  by_cases ht : (!truthy amount) = true
  · rw [if_pos ht]
  · rw [if_neg ht]
    rcases hpf : parseFloat amount with _ | A
    · rfl
    · dsimp only
      by_cases hA : A ≤ 0
      · rw [if_pos hA]
      · rw [if_neg hA]
        rcases hp : findProfile db uid with _ | p
        · rfl
        · dsimp only
          by_cases hb : p.wallet_balance < A
          · rw [if_pos hb]
          · rw [if_neg hb]
            by_cases hok : ok = true
            · rw [if_pos hok]
              rfl
            · rw [if_neg hok]
              rfl

theorem findReq_createServiceRequest (db : DB) (cid mid vid cat : ℕ) (pb : String)
    (rid : ℕ) (r : ServiceRequest) (h : findReq db rid = some r) :
    findReq (createServiceRequest db cid mid vid cat pb).1 rid = some r := by
  unfold createServiceRequest
  rcases hp : findProfile db mid with _ | mp
  · exact h
  · dsimp only
    by_cases hv : mp.verification_status ≠ "approved"
    · rw [if_pos hv]
      exact h
    · rw [if_neg hv]
      by_cases ha : (!mp.is_available) = true
      · rw [if_pos ha]
        exact h
      · rw [if_neg ha]
        by_cases hveh : (db.vehicles.find? (fun v => v.1 == vid && v.2 == cid)).isNone = true
        · rw [if_pos hveh]
          exact h
        · rw [if_neg hveh]
          show List.find? (fun r => r.id == rid) (db.requests ++ [_]) = some r
          rw [List.find?_append]
          unfold findReq at h
          rw [h]
          rfl

theorem terminal_ne_pending (r : ServiceRequest)
    (hterm : r.status = .completed ∨ r.status = .cancelled) : r.status ≠ .pending := by
  rcases hterm with h | h <;> simp [h]

theorem terminal_ne_accepted (r : ServiceRequest)
    (hterm : r.status = .completed ∨ r.status = .cancelled) : r.status ≠ .accepted := by
  rcases hterm with h | h <;> simp [h]

theorem terminal_ne_in_progress (r : ServiceRequest)
    (hterm : r.status = .completed ∨ r.status = .cancelled) : r.status ≠ .in_progress := by
  rcases hterm with h | h <;> simp [h]

theorem acceptServiceRequest_terminal (db : DB) (uid rid : ℕ) (r : ServiceRequest)
    (h : findReq db rid = some r) (hterm : r.status = .completed ∨ r.status = .cancelled) :
    errored (acceptServiceRequest db uid rid) db := by
  unfold acceptServiceRequest
  rcases hp : findProfile db uid with _ | mp
  · exact ⟨rfl, _, rfl⟩
  · dsimp only
    by_cases ha : (!mp.is_available) = true
    · rw [if_pos ha]
      exact ⟨rfl, _, rfl⟩
    · rw [if_neg ha]
      rw [h]
      dsimp only
      by_cases hm : r.mechanic_id ≠ uid
      · rw [if_pos hm]
        exact ⟨rfl, _, rfl⟩
      · rw [if_neg hm]
        rw [if_pos (terminal_ne_pending r hterm)]
        exact ⟨rfl, _, rfl⟩

theorem declineServiceRequest_terminal (db : DB) (uid rid : ℕ) (r : ServiceRequest)
    (h : findReq db rid = some r) (hterm : r.status = .completed ∨ r.status = .cancelled) :
    errored (declineServiceRequest db uid rid) db := by
  unfold declineServiceRequest
  rw [h]
  dsimp only
  by_cases hm : r.mechanic_id ≠ uid
  · rw [if_pos hm]
    exact ⟨rfl, _, rfl⟩
  · rw [if_neg hm]
    rw [if_pos (terminal_ne_pending r hterm)]
    exact ⟨rfl, _, rfl⟩

theorem markArrived_terminal (db : DB) (uid rid now : ℕ) (r : ServiceRequest)
    (h : findReq db rid = some r) (hterm : r.status = .completed ∨ r.status = .cancelled) :
    errored (markArrived db uid rid now) db := by
  unfold markArrived
  rw [h]
  dsimp only
  by_cases hm : r.mechanic_id ≠ uid
  · rw [if_pos hm]
    exact ⟨rfl, _, rfl⟩
  · rw [if_neg hm]
    rw [if_pos (terminal_ne_accepted r hterm)]
    exact ⟨rfl, _, rfl⟩

theorem cancelServiceRequest_terminal (db : DB) (uid rid : ℕ) (r : ServiceRequest)
    (h : findReq db rid = some r) (hterm : r.status = .completed ∨ r.status = .cancelled) :
    errored (cancelServiceRequest db uid rid) db := by
  unfold cancelServiceRequest
  rw [h]
  dsimp only
  by_cases hm : r.customer_id ≠ uid
  · rw [if_pos hm]
    exact ⟨rfl, _, rfl⟩
  · rw [if_neg hm]
    rw [if_pos ⟨terminal_ne_pending r hterm, terminal_ne_accepted r hterm⟩]
    exact ⟨rfl, _, rfl⟩

theorem completeServiceRequest_terminal (db : DB) (uid rid : ℕ) (m l rat : JVal)
    (rev : Option String) (now : ℕ) (r : ServiceRequest)
    (h : findReq db rid = some r) (hterm : r.status = .completed ∨ r.status = .cancelled) :
    errored (completeServiceRequest db uid rid m l rat rev now) db := by
  unfold completeServiceRequest
  by_cases hv : ¬ (truthy m = true ∧ truthy l = true ∧ truthy rat = true)
  · rw [if_pos hv]
    exact ⟨rfl, _, rfl⟩
  · rw [if_neg hv]
    rcases hpm : parseFloat m with _ | M
    · exact ⟨rfl, _, rfl⟩
    · rcases hpl : parseFloat l with _ | L
      · exact ⟨rfl, _, rfl⟩
      · rcases hpr : parseInt rat with _ | R
        · exact ⟨rfl, _, rfl⟩
        · dsimp only
          by_cases hrange : R < 1 ∨ 5 < R
          · rw [if_pos hrange]
            exact ⟨rfl, _, rfl⟩
          · rw [if_neg hrange]
            rw [h]
            dsimp only
            by_cases hcu : r.customer_id ≠ uid
            · rw [if_pos hcu]
              exact ⟨rfl, _, rfl⟩
            · rw [if_neg hcu]
              rw [if_pos (terminal_ne_in_progress r hterm)]
              exact ⟨rfl, _, rfl⟩

theorem completeServiceRequestMechanic_terminal (db : DB) (uid rid now : ℕ)
    (r : ServiceRequest) (h : findReq db rid = some r)
    (hterm : r.status = .completed ∨ r.status = .cancelled) :
    errored (completeServiceRequestMechanic db uid rid now) db := by
  unfold completeServiceRequestMechanic
  rw [h]
  dsimp only
  by_cases hm : r.mechanic_id ≠ uid
  · rw [if_pos hm]
    exact ⟨rfl, _, rfl⟩
  · rw [if_neg hm]
    rw [if_pos (terminal_ne_in_progress r hterm)]
    exact ⟨rfl, _, rfl⟩

theorem findReq_acceptServiceRequest_frozen (db : DB) (uid rid2 rid : ℕ) (r : ServiceRequest)
    (h : findReq db rid = some r) (hterm : r.status = .completed ∨ r.status = .cancelled) :
    findReq (acceptServiceRequest db uid rid2).1 rid = some r := by
  unfold acceptServiceRequest
  rcases hp : findProfile db uid with _ | mp
  · exact h
  · dsimp only
    by_cases ha : (!mp.is_available) = true
    · rw [if_pos ha]
      exact h
    · rw [if_neg ha]
      rcases hr2 : findReq db rid2 with _ | r2
      · exact h
      · dsimp only
        by_cases hm : r2.mechanic_id ≠ uid
        · rw [if_pos hm]
          exact h
        · rw [if_neg hm]
          by_cases hs : r2.status ≠ .pending
          · rw [if_pos hs]
            exact h
          · rw [if_neg hs]
            have hne : rid ≠ rid2 := by
              intro he
              rw [he] at h
              have hrr : r = r2 := Option.some.inj (h.symm.trans hr2)
              exact (terminal_ne_pending r hterm) (by rw [hrr]; exact not_not.mp hs)
            refine findReq_frozen_updateReq db rid2 _ ?_ rid r h hne
            intro r1
            rfl

theorem findReq_declineServiceRequest_frozen (db : DB) (uid rid2 rid : ℕ) (r : ServiceRequest)
    (h : findReq db rid = some r) (hterm : r.status = .completed ∨ r.status = .cancelled) :
    findReq (declineServiceRequest db uid rid2).1 rid = some r := by
  unfold declineServiceRequest
  rcases hr2 : findReq db rid2 with _ | r2
  · exact h
  · dsimp only
    by_cases hm : r2.mechanic_id ≠ uid
    · rw [if_pos hm]
      exact h
    · rw [if_neg hm]
      by_cases hs : r2.status ≠ .pending
      · rw [if_pos hs]
        exact h
      · rw [if_neg hs]
        have hne : rid ≠ rid2 := by
          intro he
          rw [he] at h
          have hrr : r = r2 := Option.some.inj (h.symm.trans hr2)
          exact (terminal_ne_pending r hterm) (by rw [hrr]; exact not_not.mp hs)
        refine findReq_frozen_updateReq db rid2 _ ?_ rid r h hne
        intro r1
        rfl

theorem findReq_markArrived_frozen (db : DB) (uid rid2 now rid : ℕ) (r : ServiceRequest)
    (h : findReq db rid = some r) (hterm : r.status = .completed ∨ r.status = .cancelled) :
    findReq (markArrived db uid rid2 now).1 rid = some r := by
  unfold markArrived
  rcases hr2 : findReq db rid2 with _ | r2
  · exact h
  · dsimp only
    by_cases hm : r2.mechanic_id ≠ uid
    · rw [if_pos hm]
      exact h
    · rw [if_neg hm]
      by_cases hs : r2.status ≠ .accepted
      · rw [if_pos hs]
        exact h
      · rw [if_neg hs]
        have hne : rid ≠ rid2 := by
          intro he
          rw [he] at h
          have hrr : r = r2 := Option.some.inj (h.symm.trans hr2)
          exact (terminal_ne_accepted r hterm) (by rw [hrr]; exact not_not.mp hs)
        refine findReq_frozen_updateReq db rid2 _ ?_ rid r h hne
        intro r1
        rfl

theorem findReq_cancelServiceRequest_frozen (db : DB) (uid rid2 rid : ℕ) (r : ServiceRequest)
    (h : findReq db rid = some r) (hterm : r.status = .completed ∨ r.status = .cancelled) :
    findReq (cancelServiceRequest db uid rid2).1 rid = some r := by
  unfold cancelServiceRequest
  rcases hr2 : findReq db rid2 with _ | r2
  · exact h
  · dsimp only
    by_cases hm : r2.customer_id ≠ uid
    · rw [if_pos hm]
      exact h
    · rw [if_neg hm]
      by_cases hs : r2.status ≠ .pending ∧ r2.status ≠ .accepted
      · rw [if_pos hs]
        exact h
      · rw [if_neg hs]
        have hne : rid ≠ rid2 := by
          intro he
          rw [he] at h
          have hrr : r = r2 := Option.some.inj (h.symm.trans hr2)
          rcases not_and_or.mp hs with h2 | h2
          · exact (terminal_ne_pending r hterm) (by rw [hrr]; exact not_not.mp h2)
          · exact (terminal_ne_accepted r hterm) (by rw [hrr]; exact not_not.mp h2)
        refine findReq_frozen_updateReq db rid2 _ ?_ rid r h hne
        intro r1
        rfl

theorem findReq_completeServiceRequest_frozen (db : DB) (uid rid2 : ℕ) (m l rat : JVal)
    (rev : Option String) (now rid : ℕ) (r : ServiceRequest)
    (h : findReq db rid = some r) (hterm : r.status = .completed ∨ r.status = .cancelled) :
    findReq (completeServiceRequest db uid rid2 m l rat rev now).1 rid = some r := by
  unfold completeServiceRequest
  by_cases hv : ¬ (truthy m = true ∧ truthy l = true ∧ truthy rat = true)
  · rw [if_pos hv]
    exact h
  · rw [if_neg hv]
    rcases hpm : parseFloat m with _ | M
    · exact h
    · rcases hpl : parseFloat l with _ | L
      · exact h
      · rcases hpr : parseInt rat with _ | R
        · exact h
        · dsimp only
          by_cases hrange : R < 1 ∨ 5 < R
          · rw [if_pos hrange]
            exact h
          · rw [if_neg hrange]
            rcases hr2 : findReq db rid2 with _ | r2
            · exact h
            · dsimp only
              by_cases hcu : r2.customer_id ≠ uid
              · rw [if_pos hcu]
                exact h
              · rw [if_neg hcu]
                by_cases hs : r2.status ≠ .in_progress
                · rw [if_pos hs]
                  exact h
                · rw [if_neg hs]
                  have hne : rid ≠ rid2 := by
                    intro he
                    rw [he] at h
                    have hrr : r = r2 := Option.some.inj (h.symm.trans hr2)
                    exact (terminal_ne_in_progress r hterm)
                      (by rw [hrr]; exact not_not.mp hs)
                  show findReq (updateMechanicRating _ _) rid = some r
                  have hfr : ∀ db2 : DB, findReq db2 rid = some r →
                      findReq (updateMechanicRating db2 r2.mechanic_id) rid = some r := by
                    intro db2 h2
                    unfold updateMechanicRating
                    by_cases hlen : (db2.requests.filter (fun r3 => r3.mechanic_id ==
                        r2.mechanic_id && r3.customer_rating.isSome)).length = 0
                    · rw [if_pos hlen]
                      exact h2
                    · rw [if_neg hlen]
                      exact h2
                  apply hfr
                  by_cases hf : r2.mechanic_confirmed = true
                  · rw [if_pos hf]
                    have h1 : findReq (updateReq db rid2
                        (customerCompletionUpdate M L R rev r2.mechanic_confirmed now)) rid =
                        some r := by
                      refine findReq_frozen_updateReq db rid2 _ ?_ rid r h hne
                      intro r1
                      rfl
                    unfold settleCommission
                    by_cases hcm : hasCommissionTxn (updateReq db rid2
                        (customerCompletionUpdate M L R rev r2.mechanic_confirmed
                          now)).transactions rid2 = true
                    · rw [if_pos hcm]
                      exact h1
                    · rw [if_neg hcm]
                      rcases hmp : findProfile (updateReq db rid2
                          (customerCompletionUpdate M L R rev r2.mechanic_confirmed now))
                          r2.mechanic_id with _ | mp
                      · exact h1
                      · exact h1
                  · rw [if_neg hf]
                    refine findReq_frozen_updateReq db rid2 _ ?_ rid r h hne
                    intro r1
                    rfl

theorem findReq_completeServiceRequestMechanic_frozen (db : DB) (uid rid2 now rid : ℕ)
    (r : ServiceRequest) (h : findReq db rid = some r)
    (hterm : r.status = .completed ∨ r.status = .cancelled) :
    findReq (completeServiceRequestMechanic db uid rid2 now).1 rid = some r := by
  unfold completeServiceRequestMechanic
  rcases hr2 : findReq db rid2 with _ | r2
  · exact h
  · dsimp only
    by_cases hm : r2.mechanic_id ≠ uid
    · rw [if_pos hm]
      exact h
    · rw [if_neg hm]
      by_cases hs : r2.status ≠ .in_progress
      · rw [if_pos hs]
        exact h
      · rw [if_neg hs]
        have hne : rid ≠ rid2 := by
          intro he
          rw [he] at h
          have hrr : r = r2 := Option.some.inj (h.symm.trans hr2)
          exact (terminal_ne_in_progress r hterm) (by rw [hrr]; exact not_not.mp hs)
        have h1 : findReq (updateReq db rid2
            (mechanicCompletionUpdate r2.customer_confirmed now)) rid = some r := by
          refine findReq_frozen_updateReq db rid2 _ ?_ rid r h hne
          intro r1
          rfl
        by_cases hfz : (r2.customer_confirmed = true ∧ optTruthy r2.labor_cost = true)
        · rw [if_pos hfz]
          unfold settleCommission
          by_cases hcm : hasCommissionTxn (updateReq db rid2
              (mechanicCompletionUpdate r2.customer_confirmed now)).transactions rid2 = true
          · rw [if_pos hcm]
            exact h1
          · rw [if_neg hcm]
            rcases hmp : findProfile (updateReq db rid2
                (mechanicCompletionUpdate r2.customer_confirmed now)) uid with _ | mp
            · exact h1
            · exact h1
        · rw [if_neg hfz]
          exact h1

/-- C5: no operation ever changes the status (indeed, any field) of a
service request whose status is `completed` or `cancelled` - every handler
invocation preserves such a request unchanged - and every call targeting it
(accept, decline, arrive, cancel, either completion) returns an error and
leaves the whole database untouched. -/
theorem terminal_requests_frozen :
    (∀ db db' : DB, Step db db' → ∀ (rid : ℕ) (r : ServiceRequest),
      findReq db rid = some r → r.status = .completed ∨ r.status = .cancelled →
      findReq db' rid = some r) ∧
    (∀ (db : DB) (rid : ℕ) (r : ServiceRequest), findReq db rid = some r →
      r.status = .completed ∨ r.status = .cancelled →
      ∀ (uid now : ℕ) (m l rat : JVal) (rev : Option String),
        errored (acceptServiceRequest db uid rid) db ∧
        errored (declineServiceRequest db uid rid) db ∧
        errored (markArrived db uid rid now) db ∧
        errored (cancelServiceRequest db uid rid) db ∧
        errored (completeServiceRequest db uid rid m l rat rev now) db ∧
        errored (completeServiceRequestMechanic db uid rid now) db) := by
  constructor
  · intro db db' hstep rid r h hterm
    cases hstep with
    | register uid => rw [findReq_registerMechanic]; exact h
    | approve uid => exact h
    | toggle uid => rw [findReq_toggleAvailability]; exact h
    | vehicle vid cid => exact h
    | create cid mid vid cat pb =>
      exact findReq_createServiceRequest db cid mid vid cat pb rid r h
    | accept uid rid2 => exact findReq_acceptServiceRequest_frozen db uid rid2 rid r h hterm
    | decline uid rid2 => exact findReq_declineServiceRequest_frozen db uid rid2 rid r h hterm
    | arrive uid rid2 now => exact findReq_markArrived_frozen db uid rid2 now rid r h hterm
    | cancel uid rid2 => exact findReq_cancelServiceRequest_frozen db uid rid2 rid r h hterm
    | completeCustomer uid rid2 m l rat rev now =>
      exact findReq_completeServiceRequest_frozen db uid rid2 m l rat rev now rid r h hterm
    | completeMechanic uid rid2 now =>
      exact findReq_completeServiceRequestMechanic_frozen db uid rid2 now rid r h hterm
    | withdraw uid amt bank ok => rw [findReq_withdrawFromWallet]; exact h
  · intro db rid r h hterm uid now m l rat rev
    exact ⟨acceptServiceRequest_terminal db uid rid r h hterm,
      declineServiceRequest_terminal db uid rid r h hterm,
      markArrived_terminal db uid rid now r h hterm,
      cancelServiceRequest_terminal db uid rid r h hterm,
      completeServiceRequest_terminal db uid rid m l rat rev now r h hterm,
      completeServiceRequestMechanic_terminal db uid rid now r h hterm⟩

/-- Witness for C5: in the concrete completed scenario, a further step leaves
the completed request untouched, and a renewed accept attempt on it errors
with the database unchanged. -/
theorem terminal_requests_frozen_witness :
    findReq (toggleAvailability sdb9 1).1 0 = some ((findReq sdb9 0).getD default) ∧
    errored (acceptServiceRequest sdb9 1 0) sdb9 :=
  ⟨terminal_requests_frozen.1 sdb9 (toggleAvailability sdb9 1).1 (Step.toggle sdb9 1) 0
      ((findReq sdb9 0).getD default) rfl (Or.inl rfl),
    (terminal_requests_frozen.2 sdb9 0 ((findReq sdb9 0).getD default) rfl (Or.inl rfl)
      1 0 (.jnum 1) (.jnum 1) (.jnum 5) none).1⟩

/-! ## The geospatial matcher contract (claim C7) -/

instance : IsTotal NearbyMechanic byDistance :=
  ⟨fun a b => le_total a.distance b.distance⟩

instance : IsTrans NearbyMechanic byDistance :=
  ⟨fun _ _ _ h1 h2 => le_trans h1 h2⟩

theorem nearbyEntry_eq_some (dist : ℚ → ℚ → ℚ → ℚ → ℚ) (specTable : List SpecRow)
    (latitude longitude radiusKm : ℚ) (specialization : Option String)
    (m : MechanicRow) (x : NearbyMechanic) :
    nearbyEntry dist specTable latitude longitude radiusKm specialization m = some x ↔
      optTruthy m.location_lat = true ∧ optTruthy m.location_lng = true ∧
      (∀ sp, specialization = some sp →
        ((specsOf specTable m.id).any (fun s => s.toLower == sp.toLower)) = true) ∧
      dist latitude longitude (m.location_lat.getD 0) (m.location_lng.getD 0) ≤ radiusKm ∧
      x = { id := m.id, name := m.full_name, rating := m.rating,
            total_jobs := m.total_jobs, specializations := specsOf specTable m.id,
            distance := round1 (dist latitude longitude (m.location_lat.getD 0)
              (m.location_lng.getD 0)),
            is_available := m.is_available, latitude := m.location_lat.getD 0,
            longitude := m.location_lng.getD 0 } := by
  unfold nearbyEntry
  by_cases h1 : (optTruthy m.location_lat = true ∧ optTruthy m.location_lng = true)
  · rw [if_neg (by simpa using h1)]
    rcases hsp : specialization with _ | sp
    · dsimp only
      simp only [Bool.not_true, Bool.false_eq_true, if_false]
      by_cases h2 : radiusKm < dist latitude longitude (m.location_lat.getD 0)
          (m.location_lng.getD 0)
      · rw [if_pos h2]
        constructor
        · intro hx
          cases hx
        · rintro ⟨-, -, -, hle, -⟩
          exact absurd h2 (not_lt.mpr hle)
      · rw [if_neg h2]
        constructor
        · intro hx
          refine ⟨h1.1, h1.2, ?_, not_lt.mp h2, (Option.some.inj hx).symm⟩
          intro sp hsp2
          cases hsp2
        · rintro ⟨-, -, -, -, hx⟩
          rw [hx]
    · dsimp only
      by_cases hany : ((specsOf specTable m.id).any
          (fun s => s.toLower == sp.toLower)) = true
      · rw [hany]
        simp only [Bool.not_true, Bool.false_eq_true, if_false]
        by_cases h2 : radiusKm < dist latitude longitude (m.location_lat.getD 0)
            (m.location_lng.getD 0)
        · rw [if_pos h2]
          constructor
          · intro hx
            cases hx
          · rintro ⟨-, -, -, hle, -⟩
            exact absurd h2 (not_lt.mpr hle)
        · rw [if_neg h2]
          constructor
          · intro hx
            refine ⟨h1.1, h1.2, ?_, not_lt.mp h2, (Option.some.inj hx).symm⟩
            intro sp2 hsp2
            rw [(Option.some.inj hsp2).symm]
            exact hany
          · rintro ⟨-, -, -, -, hx⟩
            rw [hx]
      · rw [Bool.not_eq_true] at hany
        rw [hany]
        simp only [Bool.not_false, if_true]
        constructor
        · intro hx
          cases hx
        · rintro ⟨-, -, hspec, -, -⟩
          rw [hspec sp rfl] at hany
          cases hany
  · rw [if_pos (by simpa using h1)]
    constructor
    · intro hx
      cases hx
    · rintro ⟨ha, hb, -⟩
      exact absurd ⟨ha, hb⟩ h1

/-- C7 (amended): for every distance function (in particular the source's
haversine), the nearby query returns exactly the approved, available
providers with truthy (non-null and non-zero) coordinates that lie within
the radius and match the specialization filter case-insensitively; each
result carries the distance rounded to one decimal place and the output is
sorted ascending by distance.  The query is a pure function of its inputs
(no state is written). -/
theorem getNearbyMechanics_contract (dist : ℚ → ℚ → ℚ → ℚ → ℚ) (rows : List MechanicRow)
    (specTable : List SpecRow) (latitude longitude radiusKm : ℚ)
    (specialization : Option String) :
    (∀ x, x ∈ getNearbyMechanics dist rows specTable latitude longitude radiusKm
        specialization ↔
      ∃ m ∈ rows, m.verification_status = "approved" ∧ m.is_available = true ∧
        optTruthy m.location_lat = true ∧ optTruthy m.location_lng = true ∧
        (∀ sp, specialization = some sp →
          ((specsOf specTable m.id).any (fun s => s.toLower == sp.toLower)) = true) ∧
        dist latitude longitude (m.location_lat.getD 0) (m.location_lng.getD 0) ≤ radiusKm ∧
        x = { id := m.id, name := m.full_name, rating := m.rating,
              total_jobs := m.total_jobs, specializations := specsOf specTable m.id,
              distance := round1 (dist latitude longitude (m.location_lat.getD 0)
                (m.location_lng.getD 0)),
              is_available := m.is_available, latitude := m.location_lat.getD 0,
              longitude := m.location_lng.getD 0 }) ∧
    List.Sorted byDistance
      (getNearbyMechanics dist rows specTable latitude longitude radiusKm specialization) := by
  constructor
  · intro x
    unfold getNearbyMechanics
    rw [(List.perm_insertionSort byDistance _).mem_iff, List.mem_filterMap]
    constructor
    · rintro ⟨m, hm, hx⟩
      rcases List.mem_filter.mp hm with ⟨hmem, hcond⟩
      simp only [Bool.and_eq_true, beq_iff_eq] at hcond
      rcases (nearbyEntry_eq_some dist specTable latitude longitude radiusKm
        specialization m x).mp hx with ⟨h1, h2, h3, h4, h5⟩
      exact ⟨m, hmem, hcond.1, hcond.2, h1, h2, h3, h4, h5⟩
    · rintro ⟨m, hmem, happ, havail, h1, h2, h3, h4, h5⟩
      refine ⟨m, List.mem_filter.mpr ⟨hmem, ?_⟩, ?_⟩
      · simp [happ, havail]
      · exact (nearbyEntry_eq_some dist specTable latitude longitude radiusKm
          specialization m x).mpr ⟨h1, h2, h3, h4, h5⟩
  · exact List.sorted_insertionSort byDistance _

/-- Counterexample to C7 as stated: a provider located exactly on the equator
(latitude `0`) has location data, is approved, available, and at distance `0`
from the requester (withine any radius), yet the query returns the empty list,
because the JS truthiness check `!user?.location_lat` treats the coordinate
`0` like a missing value. -/
theorem getNearbyMechanics_zero_latitude_excluded :
    specNearbyIncluded c7dist [] 0 5 10 none c7row ∧
    getNearbyMechanics c7dist [c7row] [] 0 5 10 none = [] := by
  constructor
  · refine ⟨rfl, rfl, rfl, rfl, by norm_num [c7dist], ?_⟩
    intro sp hsp
    cases hsp
  · rfl

/-! ## Dual confirmation (claim C4) -/

theorem findReq_updateMechanicRating (db : DB) (mechId rid : ℕ) :
    findReq (updateMechanicRating db mechId) rid = findReq db rid := by
  unfold updateMechanicRating
  by_cases h : (db.requests.filter
      (fun r => r.mechanic_id == mechId && r.customer_rating.isSome)).length = 0
  · rw [if_pos h]
  · rw [if_neg h]
    rfl

theorem findReq_settleCommission (db : DB) (rid2 mechId : ℕ) (lab : ℚ) (rid : ℕ) :
    findReq (settleCommission db rid2 mechId lab) rid = findReq db rid := by
  unfold settleCommission
  by_cases hc : hasCommissionTxn db.transactions rid2 = true
  · rw [if_pos hc]
  · rw [if_neg hc]
    rcases hp : findProfile db mechId with _ | p
    · rfl
    · rfl

/-- Reduction of a valid customer completion call to its three writes. -/
theorem completeServiceRequest_success (db : DB) (uid rid : ℕ) (m l rat : JVal)
    (rev : Option String) (now : ℕ) (r : ServiceRequest) (M L : ℚ) (R : ℤ)
    (h : findReq db rid = some r) (hcid : r.customer_id = uid)
    (hst : r.status = .in_progress)
    (htm : truthy m = true) (htl : truthy l = true) (htr : truthy rat = true)
    (hm : parseFloat m = some M) (hl : parseFloat l = some L) (hr2 : parseInt rat = some R)
    (hrange : ¬(R < 1 ∨ 5 < R)) :
    completeServiceRequest db uid rid m l rat rev now =
      (updateMechanicRating
        (if r.mechanic_confirmed = true then
          settleCommission (updateReq db rid
            (customerCompletionUpdate M L R rev r.mechanic_confirmed now)) rid
            r.mechanic_id L
        else updateReq db rid
          (customerCompletionUpdate M L R rev r.mechanic_confirmed now)) r.mechanic_id,
      Except.ok ()) := by
  unfold completeServiceRequest
  rw [if_neg (by simp [htm, htl, htr]), hm, hl, hr2]
  dsimp only
  rw [if_neg hrange, h]
  dsimp only
  rw [if_neg (by simp [hcid]), if_neg (by simp [hst])]

/-- Reduction of a valid mechanic completion call to its writes. -/
theorem completeServiceRequestMechanic_success (db : DB) (uid rid now : ℕ)
    (r : ServiceRequest) (h : findReq db rid = some r) (hmid : r.mechanic_id = uid)
    (hst : r.status = .in_progress) :
    completeServiceRequestMechanic db uid rid now =
      (if (r.customer_confirmed = true ∧ optTruthy r.labor_cost = true) then
        settleCommission (updateReq db rid
          (mechanicCompletionUpdate r.customer_confirmed now)) rid uid
          (r.labor_cost.getD 0)
      else updateReq db rid (mechanicCompletionUpdate r.customer_confirmed now),
      Except.ok ()) := by
  unfold completeServiceRequestMechanic
  rw [h]
  dsimp only
  rw [if_neg (by simp [hmid]), if_neg (by simp [hst])]

/-- C4: on an in-progress request, a completion call by either party succeeds
and rewrites the request with that party's confirmation flag set; the status
becomes `completed` (and `completed_at` is stamped with the call time) if and
only if the other party's flag was already true, and the first party to
confirm leaves the status at `in_progress` with `completed_at` untouched. -/
theorem completion_sets_flag_and_finalizes :
    (∀ (db : DB) (uid rid : ℕ) (m l rat : JVal) (rev : Option String) (now : ℕ)
      (r : ServiceRequest) (M L : ℚ) (R : ℤ),
      findReq db rid = some r → r.customer_id = uid → r.status = .in_progress →
      truthy m = true → truthy l = true → truthy rat = true →
      parseFloat m = some M → parseFloat l = some L → parseInt rat = some R →
      ¬(R < 1 ∨ 5 < R) →
      (completeServiceRequest db uid rid m l rat rev now).2 = .ok () ∧
      findReq (completeServiceRequest db uid rid m l rat rev now).1 rid =
        some (customerCompletionUpdate M L R rev r.mechanic_confirmed now r) ∧
      (customerCompletionUpdate M L R rev r.mechanic_confirmed now r).customer_confirmed =
        true ∧
      ((customerCompletionUpdate M L R rev r.mechanic_confirmed now r).status =
        .completed ↔ r.mechanic_confirmed = true) ∧
      (r.mechanic_confirmed = true →
        (customerCompletionUpdate M L R rev r.mechanic_confirmed now r).completed_at =
          some now) ∧
      (r.mechanic_confirmed = false →
        (customerCompletionUpdate M L R rev r.mechanic_confirmed now r).status =
          .in_progress ∧
        (customerCompletionUpdate M L R rev r.mechanic_confirmed now r).completed_at =
          r.completed_at)) ∧
    (∀ (db : DB) (uid rid now : ℕ) (r : ServiceRequest),
      findReq db rid = some r → r.mechanic_id = uid → r.status = .in_progress →
      (completeServiceRequestMechanic db uid rid now).2 = .ok () ∧
      findReq (completeServiceRequestMechanic db uid rid now).1 rid =
        some (mechanicCompletionUpdate r.customer_confirmed now r) ∧
      (mechanicCompletionUpdate r.customer_confirmed now r).mechanic_confirmed = true ∧
      ((mechanicCompletionUpdate r.customer_confirmed now r).status = .completed ↔
        r.customer_confirmed = true) ∧
      (r.customer_confirmed = true →
        (mechanicCompletionUpdate r.customer_confirmed now r).completed_at = some now) ∧
      (r.customer_confirmed = false →
        (mechanicCompletionUpdate r.customer_confirmed now r).status = .in_progress ∧
        (mechanicCompletionUpdate r.customer_confirmed now r).completed_at =
          r.completed_at)) := by
  constructor
  · intro db uid rid m l rat rev now r M L R h hcid hst htm htl htr hm hl hr2 hrange
    have hred := completeServiceRequest_success db uid rid m l rat rev now r M L R h hcid
      hst htm htl htr hm hl hr2 hrange
    refine ⟨by rw [hred], ?_, rfl, ?_, ?_, ?_⟩
    · rw [hred]
      show findReq (updateMechanicRating _ r.mechanic_id) rid = _
      rw [findReq_updateMechanicRating]
      by_cases hf : r.mechanic_confirmed = true
      · rw [if_pos hf, findReq_settleCommission]
        exact findReq_updateReq_self db rid
          (customerCompletionUpdate M L R rev r.mechanic_confirmed now) (fun r1 => rfl) r h
      · rw [if_neg hf]
        exact findReq_updateReq_self db rid
          (customerCompletionUpdate M L R rev r.mechanic_confirmed now) (fun r1 => rfl) r h
    · by_cases hf : r.mechanic_confirmed = true
      · simp [customerCompletionUpdate, hf]
      · simp [customerCompletionUpdate, hf, hst]
    · intro hf
      simp [customerCompletionUpdate, hf]
    · intro hf
      constructor <;> simp [customerCompletionUpdate, hf, hst]
  · intro db uid rid now r h hmid hst
    have hred := completeServiceRequestMechanic_success db uid rid now r h hmid hst
    refine ⟨by rw [hred], ?_, rfl, ?_, ?_, ?_⟩
    · rw [hred]
      by_cases hfz : (r.customer_confirmed = true ∧ optTruthy r.labor_cost = true)
      · show findReq (if _ then _ else _) rid = _
        rw [if_pos hfz, findReq_settleCommission]
        exact findReq_updateReq_self db rid
          (mechanicCompletionUpdate r.customer_confirmed now) (fun r1 => rfl) r h
      · show findReq (if _ then _ else _) rid = _
        rw [if_neg hfz]
        exact findReq_updateReq_self db rid
          (mechanicCompletionUpdate r.customer_confirmed now) (fun r1 => rfl) r h
    · by_cases hf : r.customer_confirmed = true
      · simp [mechanicCompletionUpdate, hf]
      · simp [mechanicCompletionUpdate, hf, hst]
    · intro hf
      simp [mechanicCompletionUpdate, hf]
    · intro hf
      constructor <;> simp [mechanicCompletionUpdate, hf, hst]

/-- Witness for C4: the customer confirms first in the concrete scenario -
the call succeeds, the flag is set, and the request stays `in_progress`. -/
theorem completion_sets_flag_and_finalizes_witness :
    (completeServiceRequest sdb7 2 0 (.jnum 50) (.jnum 100) (.jnum 5) none 20).2 =
      .ok () ∧
    findReq sdb8 0 = some (customerCompletionUpdate 50 100 (jsTrunc 5) none
      ((findReq sdb7 0).getD default).mechanic_confirmed 20
      ((findReq sdb7 0).getD default)) :=
  ⟨(completion_sets_flag_and_finalizes.1 sdb7 2 0 (.jnum 50) (.jnum 100) (.jnum 5) none 20
      ((findReq sdb7 0).getD default) 50 100 (jsTrunc 5) rfl rfl rfl (by decide) (by decide)
      (by decide) rfl rfl rfl (by decide)).1,
    (completion_sets_flag_and_finalizes.1 sdb7 2 0 (.jnum 50) (.jnum 100) (.jnum 5) none 20
      ((findReq sdb7 0).getD default) 50 100 (jsTrunc 5) rfl rfl rfl (by decide) (by decide)
      (by decide) rfl rfl rfl (by decide)).2.1⟩

/-! ## Settlement arithmetic (claim C2) -/

@[simp] theorem findProfile_updateReq (db : DB) (rid : ℕ) (f : ServiceRequest → ServiceRequest)
    (v : ℕ) : findProfile (updateReq db rid f) v = findProfile db v := rfl

theorem updateMechanicRating_transactions (db : DB) (mechId : ℕ) :
    (updateMechanicRating db mechId).transactions = db.transactions := by
  unfold updateMechanicRating
  by_cases h : (db.requests.filter
      (fun r => r.mechanic_id == mechId && r.customer_rating.isSome)).length = 0
  · rw [if_pos h]
  · rw [if_neg h]
    rfl

/-- The profile write performed by the rating aggregation, with the average
spelled out. -/
def ratingWrite (db : DB) (mechId : ℕ) (p : MechanicProfile) : MechanicProfile :=
  { p with rating := round1 (((((db.requests.filter (fun r => r.mechanic_id == mechId && r.customer_rating.isSome)).map (fun r => r.customer_rating.getD 0)).sum : ℤ) : ℚ) / ((db.requests.filter (fun r => r.mechanic_id == mechId && r.customer_rating.isSome)).length : ℚ)) }

theorem findProfile_insertTxn (db : DB) (t : WalletTransaction) (v : ℕ) :
    findProfile (insertTxn db t) v = findProfile db v := rfl

theorem updateMechanicRating_cases (db : DB) (mechId : ℕ) :
    updateMechanicRating db mechId = db ∨
    ∃ g : MechanicProfile → MechanicProfile, (∀ p, (g p).user_id = p.user_id) ∧
      (∀ p, (g p).wallet_balance = p.wallet_balance) ∧
      updateMechanicRating db mechId = updateProfile db mechId g := by
  unfold updateMechanicRating
  by_cases h : (db.requests.filter
      (fun r => r.mechanic_id == mechId && r.customer_rating.isSome)).length = 0
  · rw [if_pos h]
    exact Or.inl rfl
  · rw [if_neg h]
    exact Or.inr ⟨ratingWrite db mechId, fun p => rfl, fun p => rfl, rfl⟩

theorem findProfile_updateMechanicRating_balance (db : DB) (mechId v : ℕ) :
    (findProfile (updateMechanicRating db mechId) v).map (·.wallet_balance) =
    (findProfile db v).map (·.wallet_balance) := by
  rcases updateMechanicRating_cases db mechId with h | ⟨g, hgu, hgb, h⟩
  · rw [h]
  · rw [h, findProfile_updateProfile db mechId v g hgu]
    rcases findProfile db v with _ | p
    · rfl
    · show some (if (p.user_id == mechId) = true then g p else p).wallet_balance = _
      by_cases hp2 : (p.user_id == mechId) = true <;> simp [hp2, hgb]

/-- The balance visible after the settlement insert. -/
theorem findProfile_settle_insert (db : DB) (rid mechId : ℕ) (laborCost : ℚ)
    (p : MechanicProfile) (hc : hasCommissionTxn db.transactions rid = false)
    (hp : findProfile db mechId = some p) :
    (findProfile (settleCommission db rid mechId laborCost) mechId).map
      (·.wallet_balance) =
      some (p.wallet_balance + (laborCost - laborCost * 0.15)) ∧
    (settleCommission db rid mechId laborCost).transactions =
      db.transactions ++ [commTxn mechId rid (laborCost * 0.15)] := by
  unfold settleCommission
  rw [if_neg (by simp [hc]), hp]
  dsimp only
  constructor
  · rw [findProfile_insertTxn]
    rw [findProfile_updateProfile db mechId mechId
      (fun q : MechanicProfile =>
        { q with wallet_balance := q.wallet_balance + (laborCost - laborCost * 0.15) })
      (fun q => rfl), hp]
    have hpu : (p.user_id == mechId) = true := by
      simp [findProfile_uid db mechId p hp]
    show some (if (p.user_id == mechId) = true then _ else p).wallet_balance = _
    rw [hpu]
    rfl
  · rfl

/-- C2 (amended): when a request with labor cost `L` and material cost `M`
transitions into `completed`, the settlement computes commission `0.15 * L`
and provider earnings `L - 0.15 * L`, credits the earnings to the provider
wallet, and appends exactly one `commission_deduction` transaction of amount
`-(0.15 * L)` referencing the request; on the customer path `total_cost` is
written as `M + L`.  Exception forced by the code: when the finalization
happens on the provider path and the stored `labor_cost` is `0` (or null),
the settlement block is skipped entirely, so no transaction is appended and
the balance is unchanged - hence the provider-path statement assumes
`L ≠ 0`. -/
theorem settlement_on_completion :
    (∀ (db : DB) (uid rid : ℕ) (m l rat : JVal) (rev : Option String) (now : ℕ)
      (r : ServiceRequest) (M L : ℚ) (R : ℤ) (p : MechanicProfile),
      findReq db rid = some r → r.customer_id = uid → r.status = .in_progress →
      r.mechanic_confirmed = true →
      truthy m = true → truthy l = true → truthy rat = true →
      parseFloat m = some M → parseFloat l = some L → parseInt rat = some R →
      ¬(R < 1 ∨ 5 < R) →
      hasCommissionTxn db.transactions rid = false →
      findProfile db r.mechanic_id = some p →
      (findReq (completeServiceRequest db uid rid m l rat rev now).1 rid).map
        (·.total_cost) = some (some (M + L)) ∧
      (findReq (completeServiceRequest db uid rid m l rat rev now).1 rid).map
        (·.status) = some .completed ∧
      (completeServiceRequest db uid rid m l rat rev now).1.transactions =
        db.transactions ++ [commTxn r.mechanic_id rid (L * 0.15)] ∧
      (findProfile (completeServiceRequest db uid rid m l rat rev now).1
        r.mechanic_id).map (·.wallet_balance) =
        some (p.wallet_balance + (L - L * 0.15)) ∧
      (commTxn r.mechanic_id rid (L * 0.15)).amount = -(L * 0.15) ∧
      (commTxn r.mechanic_id rid (L * 0.15)).reference_id = some rid ∧
      (commTxn r.mechanic_id rid (L * 0.15)).transaction_type = .commission_deduction) ∧
    (∀ (db : DB) (uid rid now : ℕ) (r : ServiceRequest) (L : ℚ) (p : MechanicProfile),
      findReq db rid = some r → r.mechanic_id = uid → r.status = .in_progress →
      r.customer_confirmed = true → r.labor_cost = some L → L ≠ 0 →
      hasCommissionTxn db.transactions rid = false →
      findProfile db uid = some p →
      (findReq (completeServiceRequestMechanic db uid rid now).1 rid).map (·.status) =
        some .completed ∧
      (completeServiceRequestMechanic db uid rid now).1.transactions =
        db.transactions ++ [commTxn uid rid (L * 0.15)] ∧
      (findProfile (completeServiceRequestMechanic db uid rid now).1 uid).map
        (·.wallet_balance) = some (p.wallet_balance + (L - L * 0.15))) := by
  constructor
  · intro db uid rid m l rat rev now r M L R p h hcid hst hmc htm htl htr hm hl hr2 hrange
      hc hp
    have hred := completeServiceRequest_success db uid rid m l rat rev now r M L R h hcid
      hst htm htl htr hm hl hr2 hrange
    have hfind : findReq (completeServiceRequest db uid rid m l rat rev now).1 rid =
        some (customerCompletionUpdate M L R rev r.mechanic_confirmed now r) := by
      rw [hred]
      show findReq (updateMechanicRating _ r.mechanic_id) rid = _
      rw [findReq_updateMechanicRating, if_pos hmc, findReq_settleCommission]
      exact findReq_updateReq_self db rid
        (customerCompletionUpdate M L R rev r.mechanic_confirmed now) (fun r1 => rfl) r h
    have hsettle := findProfile_settle_insert
      (updateReq db rid (customerCompletionUpdate M L R rev r.mechanic_confirmed now))
      rid r.mechanic_id L p hc hp
    refine ⟨?_, ?_, ?_, ?_, rfl, rfl, rfl⟩
    · rw [hfind]
      rfl
    · rw [hfind]
      show some (if r.mechanic_confirmed = true then Status.completed else r.status) = _
      rw [if_pos hmc]
    · rw [hred]
      show (updateMechanicRating _ r.mechanic_id).transactions = _
      rw [updateMechanicRating_transactions, if_pos hmc]
      exact hsettle.2
    · rw [hred]
      show ((findProfile (updateMechanicRating _ r.mechanic_id) r.mechanic_id).map
        (·.wallet_balance)) = _
      rw [findProfile_updateMechanicRating_balance, if_pos hmc]
      exact hsettle.1
  · intro db uid rid now r L p h hmid hst hcc hlab hLne hc hp
    have hred := completeServiceRequestMechanic_success db uid rid now r h hmid hst
    have hfz : (r.customer_confirmed = true ∧ optTruthy r.labor_cost = true) := by
      refine ⟨hcc, ?_⟩
      rw [hlab]
      simpa [optTruthy] using hLne
    have hgetD : r.labor_cost.getD 0 = L := by
      rw [hlab]
      rfl
    have hsettle := findProfile_settle_insert
      (updateReq db rid (mechanicCompletionUpdate r.customer_confirmed now))
      rid uid L p hc hp
    refine ⟨?_, ?_, ?_⟩
    · have hfind : findReq (completeServiceRequestMechanic db uid rid now).1 rid =
          some (mechanicCompletionUpdate r.customer_confirmed now r) := by
        rw [hred]
        show findReq (if _ then _ else _) rid = _
        rw [if_pos hfz, findReq_settleCommission]
        exact findReq_updateReq_self db rid
          (mechanicCompletionUpdate r.customer_confirmed now) (fun r1 => rfl) r h
      rw [hfind]
      show some (if r.customer_confirmed = true then Status.completed else r.status) = _
      rw [if_pos hcc]
    · rw [hred]
      show (if _ then _ else _ : DB).transactions = _
      rw [if_pos hfz, hgetD]
      exact hsettle.2
    · rw [hred]
      show ((findProfile (if _ then _ else _ : DB) uid).map (·.wallet_balance)) = _
      rw [if_pos hfz, hgetD]
      exact hsettle.1

/-- Witness for C2: in the concrete scenario (`labor_cost = 100`,
`material_cost = 50`) the mechanic finalization appends the single
commission transaction for request 0 and credits the earnings. -/
theorem settlement_on_completion_witness :
    sdb9.transactions = sdb8.transactions ++ [commTxn 1 0 (100 * 0.15)] ∧
    (findProfile sdb9 1).map (·.wallet_balance) =
      some (((findProfile sdb8 1).getD default).wallet_balance + (100 - 100 * 0.15)) :=
  ⟨(settlement_on_completion.2 sdb8 1 0 30 ((findReq sdb8 0).getD default) 100
      ((findProfile sdb8 1).getD default) rfl rfl rfl rfl rfl (by decide) rfl rfl).2.1,
    (settlement_on_completion.2 sdb8 1 0 30 ((findReq sdb8 0).getD default) 100
      ((findProfile sdb8 1).getD default) rfl rfl rfl rfl rfl (by decide) rfl rfl).2.2⟩

/-- Counterexample to C2 as stated: a request whose customer confirmed with
costs `0` (reachable through the string-`"0"` inputs) transitions into
`completed` on the provider path, but no `commission_deduction` transaction
is appended at all - the settlement block is guarded by JS truthiness of
`labor_cost`, and `0` is falsy - where the claim promises one transaction of
amount `-0`. -/
theorem settlement_zero_labor_counterexample :
    zeroReq.labor_cost = some 0 ∧ zeroReq.customer_confirmed = true ∧
    (completeServiceRequestMechanic c2db 1 0 9).2 = .ok () ∧
    (findReq (completeServiceRequestMechanic c2db 1 0 9).1 0).map (·.status) =
      some .completed ∧
    c2db.transactions = [] ∧
    (completeServiceRequestMechanic c2db 1 0 9).1.transactions = [] ∧
    (findProfile (completeServiceRequestMechanic c2db 1 0 9).1 1).map
      (·.wallet_balance) = some 0 :=
  ⟨rfl, rfl, rfl, rfl, rfl, rfl, rfl⟩

/-! ## Withdrawal processor (claim C6) -/

/-- C6: a withdrawal must parse to a positive amount (otherwise a validation
error with no mutation); an amount exceeding the balance is rejected with the
insufficient-balance error, no ledger row and no balance change; on success
the balance is debited by the amount and a `pending` `withdrawal` transaction
of the negated amount is appended; when the transaction insert fails, the
debit is written back and the state is exactly the pre-call state. -/
theorem withdrawal_processor_contract :
    (∀ (db : DB) (uid : ℕ) (amount : JVal) (bank : Option String) (ok : Bool) (A : ℚ),
      truthy amount = true → parseFloat amount = some A → A ≤ 0 →
      withdrawFromWallet db uid amount bank ok = (db, .error .invalidValues)) ∧
    (∀ (db : DB) (uid : ℕ) (amount : JVal) (bank : Option String) (ok : Bool) (A : ℚ)
      (p : MechanicProfile),
      truthy amount = true → parseFloat amount = some A → ¬ A ≤ 0 →
      findProfile db uid = some p → p.wallet_balance < A →
      withdrawFromWallet db uid amount bank ok = (db, .error .insufficientBalance)) ∧
    (∀ (db : DB) (uid : ℕ) (amount : JVal) (bank : Option String) (A : ℚ)
      (p : MechanicProfile),
      truthy amount = true → parseFloat amount = some A → ¬ A ≤ 0 →
      findProfile db uid = some p → ¬ p.wallet_balance < A →
      (withdrawFromWallet db uid amount bank true).2 = .ok () ∧
      (withdrawFromWallet db uid amount bank true).1.transactions =
        db.transactions ++ [withdrawalTxn uid A bank] ∧
      (findProfile (withdrawFromWallet db uid amount bank true).1 uid).map
        (·.wallet_balance) = some (p.wallet_balance - A) ∧
      (withdrawalTxn uid A bank).amount = -A ∧
      (withdrawalTxn uid A bank).status = some .pending ∧
      (withdrawalTxn uid A bank).transaction_type = .withdrawal) ∧
    (∀ (db : DB) (uid : ℕ) (amount : JVal) (bank : Option String) (A : ℚ)
      (p : MechanicProfile),
      (db.profiles.map (·.user_id)).Nodup →
      truthy amount = true → parseFloat amount = some A → ¬ A ≤ 0 →
      findProfile db uid = some p → ¬ p.wallet_balance < A →
      withdrawFromWallet db uid amount bank false = (db, .error .internal)) := by
  refine ⟨?_, ?_, ?_, ?_⟩
  · intro db uid amount bank ok A ht hpf hA
    unfold withdrawFromWallet
    rw [if_neg (by simp [ht]), hpf]
    dsimp only
    rw [if_pos hA]
  · intro db uid amount bank ok A p ht hpf hA hp hb
    unfold withdrawFromWallet
    rw [if_neg (by simp [ht]), hpf]
    dsimp only
    rw [if_neg hA, hp]
    dsimp only
    rw [if_pos hb]
  · intro db uid amount bank A p ht hpf hA hp hb
    have hred : withdrawFromWallet db uid amount bank true =
        (insertTxn (updateProfile db uid
          (fun q => { q with wallet_balance := p.wallet_balance - A }))
          (withdrawalTxn uid A bank), .ok ()) := by
      unfold withdrawFromWallet
      rw [if_neg (by simp [ht]), hpf]
      dsimp only
      rw [if_neg hA, hp]
      dsimp only
      rw [if_neg hb, if_pos rfl]
    refine ⟨by rw [hred], ?_, ?_, rfl, rfl, rfl⟩
    · rw [hred]
      rfl
    · rw [hred]
      show ((findProfile (insertTxn (updateProfile db uid _) _) uid).map
        (·.wallet_balance)) = _
      rw [findProfile_insertTxn]
      rw [findProfile_updateProfile db uid uid
        (fun q : MechanicProfile => { q with wallet_balance := p.wallet_balance - A })
        (fun q => rfl), hp]
      have hpu : (p.user_id == uid) = true := by
        simp [findProfile_uid db uid p hp]
      show some (if (p.user_id == uid) = true then _ else p).wallet_balance = _
      rw [hpu]
      rfl
  · intro db uid amount bank A p hnd ht hpf hA hp hb
    unfold withdrawFromWallet
    rw [if_neg (by simp [ht]), hpf]
    dsimp only
    rw [if_neg hA, hp]
    dsimp only
    rw [if_neg hb, if_neg (by simp)]
    have hdbeq : updateProfile (updateProfile db uid
        (fun q => { q with wallet_balance := p.wallet_balance - A })) uid
        (fun q => { q with wallet_balance := p.wallet_balance }) = db := by
      have hprof : (updateProfile (updateProfile db uid
          (fun q => { q with wallet_balance := p.wallet_balance - A })) uid
          (fun q => { q with wallet_balance := p.wallet_balance })).profiles =
          db.profiles := by
        simp only [updateProfile_profiles, List.map_map]
        have hid : ∀ q ∈ db.profiles,
            ((fun q1 : MechanicProfile =>
                if q1.user_id == uid then
                  { q1 with wallet_balance := p.wallet_balance } else q1) ∘
              (fun q1 : MechanicProfile =>
                if q1.user_id == uid then
                  { q1 with wallet_balance := p.wallet_balance - A } else q1)) q = q := by
          intro q hq
          by_cases hqu : q.user_id = uid
          · have hpq : q = p :=
              nodup_key_eq hnd hq (findProfile_mem db uid p hp)
                (by rw [hqu, findProfile_uid db uid p hp])
            simp only [Function.comp_apply, hqu, beq_self_eq_true, if_true]
            rw [hpq, ← findProfile_uid db uid p hp]
          · simp [Function.comp_apply, hqu]
        rw [List.map_congr_left hid]
        exact List.map_id _
      rw [show updateProfile (updateProfile db uid
          (fun q => { q with wallet_balance := p.wallet_balance - A })) uid
          (fun q => { q with wallet_balance := p.wallet_balance }) =
          { db with profiles := (updateProfile (updateProfile db uid
            (fun q => { q with wallet_balance := p.wallet_balance - A })) uid
            (fun q => { q with wallet_balance := p.wallet_balance })).profiles }
        from rfl, hprof]
    rw [hdbeq]

/-- Witness for C6: a withdrawal of 200 against a balance of 150 is rejected
with the insufficient-balance error and no state change, matching the spec
scenario; a withdrawal of 100 against the same balance succeeds. -/
theorem withdrawal_processor_contract_witness :
    withdrawFromWallet wdb 1 (.jnum 200) none true = (wdb, .error .insufficientBalance) ∧
    (withdrawFromWallet wdb 1 (.jnum 100) none true).2 = .ok () ∧
    (withdrawFromWallet wdb 1 (.jnum 100) none true).1.transactions =
      wdb.transactions ++ [withdrawalTxn 1 100 none] ∧
    withdrawFromWallet wdb 1 (.jnum 100) none false = (wdb, .error .internal) :=
  ⟨withdrawal_processor_contract.2.1 wdb 1 (.jnum 200) none true 200
      ((findProfile wdb 1).getD default) (by decide) rfl (by decide) rfl (by decide),
    (withdrawal_processor_contract.2.2.1 wdb 1 (.jnum 100) none 100
      ((findProfile wdb 1).getD default) (by decide) rfl (by decide) rfl (by decide)).1,
    (withdrawal_processor_contract.2.2.1 wdb 1 (.jnum 100) none 100
      ((findProfile wdb 1).getD default) (by decide) rfl (by decide) rfl (by decide)).2.1,
    withdrawal_processor_contract.2.2.2 wdb 1 (.jnum 100) none 100
      ((findProfile wdb 1).getD default) (by decide) (by decide) rfl (by decide) rfl
      (by decide)⟩

/-! ## Ledger and commission claims (C1, C3, C9) -/

theorem settleCommission_skip (db : DB) (rid mechId : ℕ) (L : ℚ)
    (h : hasCommissionTxn db.transactions rid = true) :
    settleCommission db rid mechId L = db := by
  unfold settleCommission
  rw [if_pos h]

theorem updateMechanicRating_balances (db : DB) (mechId : ℕ) :
    (updateMechanicRating db mechId).profiles.map (fun p => (p.user_id, p.wallet_balance)) =
    db.profiles.map (fun p => (p.user_id, p.wallet_balance)) := by
  rcases updateMechanicRating_cases db mechId with h | ⟨g, hgu, hgb, h⟩
  · rw [h]
  · rw [h]
    show (db.profiles.map _).map _ = _
    rw [List.map_map]
    refine List.map_congr_left ?_
    intro p hp
    by_cases hc : (p.user_id == mechId) = true
    · simp only [Function.comp_apply, hc, if_true, hgu, hgb]
    · have hne : ¬ p.user_id = mechId := by simpa using hc
      simp [hc, hne]

/-- C1 (amended): in every reachable state a provider's `wallet_balance`
equals the sum of `amount` over their ledger rows PLUS the sum of `labor_cost`
over their settled requests - not the ledger sum alone, because settlement
credits the net earnings (85% of labor) to the wallet but records only the
commission deduction (-15% of labor) in the ledger. -/
theorem wallet_ledger_balance_invariant (db : DB) (h : Reachable db) :
    ∀ p ∈ db.profiles,
      p.wallet_balance = txnSum db.transactions p.user_id + settledLaborSum db p.user_id :=
  (reachable_inv db h).balance_eq

/-- Witness for C1 at the concrete reachable state `sdb9`. -/
theorem wallet_ledger_balance_invariant_witness :
    ((findProfile sdb9 1).getD default).wallet_balance =
      txnSum sdb9.transactions ((findProfile sdb9 1).getD default).user_id +
        settledLaborSum sdb9 ((findProfile sdb9 1).getD default).user_id :=
  wallet_ledger_balance_invariant sdb9 reachable_sdb9 ((findProfile sdb9 1).getD default)
    (findProfile_mem sdb9 1 ((findProfile sdb9 1).getD default) rfl)

/-- Counterexample to C1 as stated: in the reachable state `sdb9` the
mechanic's wallet holds the net earnings `0 + (100 - 100 * 0.15) = 85`, but
the sum over the ledger rows is only `-(100 * 0.15) + 0 = -15`, since the
settlement credit itself is never inserted as a transaction. -/
theorem wallet_ledger_balance_counterexample :
    Reachable sdb9 ∧
    (findProfile sdb9 1).map (·.wallet_balance) = some (0 + (100 - 100 * 0.15)) ∧
    txnSum sdb9.transactions 1 = -(100 * 0.15) + 0 ∧
    (0 : ℚ) + (100 - 100 * 0.15) = 85 ∧ (-(100 * 0.15) + (0 : ℚ)) = -15 ∧
    (85 : ℚ) ≠ -15 :=
  ⟨reachable_sdb9, rfl, rfl, by norm_num, by norm_num, by norm_num⟩

/-- C3: in every reachable state at most one `commission_deduction`
transaction references a given request; moreover a settlement attempt against
a ledger that already holds one is a no-op (`settleCommission` returns the
state unchanged), and both completion handlers then leave the ledger and
every wallet balance untouched. -/
theorem commission_charged_once :
    (∀ db : DB, Reachable db → ∀ rid : ℕ,
      (db.transactions.filter (isCommFor rid)).length ≤ 1) ∧
    (∀ (db : DB) (rid mechId : ℕ) (L : ℚ),
      hasCommissionTxn db.transactions rid = true →
      settleCommission db rid mechId L = db) ∧
    (∀ (db : DB) (uid rid : ℕ) (m l rat : JVal) (rev : Option String) (now : ℕ),
      hasCommissionTxn db.transactions rid = true →
      (completeServiceRequest db uid rid m l rat rev now).1.transactions =
        db.transactions ∧
      (completeServiceRequest db uid rid m l rat rev now).1.profiles.map
          (fun p => (p.user_id, p.wallet_balance)) =
        db.profiles.map (fun p => (p.user_id, p.wallet_balance))) ∧
    (∀ (db : DB) (uid rid now : ℕ),
      hasCommissionTxn db.transactions rid = true →
      (completeServiceRequestMechanic db uid rid now).1.transactions =
        db.transactions ∧
      (completeServiceRequestMechanic db uid rid now).1.profiles.map
          (fun p => (p.user_id, p.wallet_balance)) =
        db.profiles.map (fun p => (p.user_id, p.wallet_balance))) := by
  refine ⟨fun db h rid => (reachable_inv db h).comm_unique rid,
    settleCommission_skip, ?_, ?_⟩
  · intro db uid rid m l rat rev now hcomm
    unfold completeServiceRequest
    by_cases hv : ¬ (truthy m = true ∧ truthy l = true ∧ truthy rat = true)
    · rw [if_pos hv]
      exact ⟨rfl, rfl⟩
    · rw [if_neg hv]
      rcases hpm : parseFloat m with _ | M
      · exact ⟨rfl, rfl⟩
      · rcases hpl : parseFloat l with _ | L
        · exact ⟨rfl, rfl⟩
        · rcases hpr : parseInt rat with _ | R
          · exact ⟨rfl, rfl⟩
          · dsimp only
            by_cases hrange : R < 1 ∨ 5 < R
            · rw [if_pos hrange]
              exact ⟨rfl, rfl⟩
            · rw [if_neg hrange]
              rcases hr : findReq db rid with _ | r0
              · exact ⟨rfl, rfl⟩
              · dsimp only
                by_cases hcu : r0.customer_id ≠ uid
                · rw [if_pos hcu]
                  exact ⟨rfl, rfl⟩
                · rw [if_neg hcu]
                  by_cases hs : r0.status ≠ .in_progress
                  · rw [if_pos hs]
                    exact ⟨rfl, rfl⟩
                  · rw [if_neg hs]
                    have hcomm1 : hasCommissionTxn (updateReq db rid
                        (customerCompletionUpdate M L R rev r0.mechanic_confirmed
                          now)).transactions rid = true := hcomm
                    have hD2 : (if r0.mechanic_confirmed = true then
                        settleCommission (updateReq db rid
                          (customerCompletionUpdate M L R rev r0.mechanic_confirmed now))
                          rid r0.mechanic_id L
                      else updateReq db rid
                        (customerCompletionUpdate M L R rev r0.mechanic_confirmed now)) =
                        updateReq db rid
                          (customerCompletionUpdate M L R rev r0.mechanic_confirmed now) := by
                      by_cases hf : r0.mechanic_confirmed = true
                      · rw [if_pos hf]
                        exact settleCommission_skip _ rid r0.mechanic_id L hcomm1
                      · rw [if_neg hf]
                    exact ⟨(updateMechanicRating_transactions _ r0.mechanic_id).trans
                        (by rw [hD2]; rfl),
                      (updateMechanicRating_balances _ r0.mechanic_id).trans
                        (by rw [hD2]; rfl)⟩
  · intro db uid rid now hcomm
    unfold completeServiceRequestMechanic
    rcases hr : findReq db rid with _ | r0
    · exact ⟨rfl, rfl⟩
    · dsimp only
      by_cases hm : r0.mechanic_id ≠ uid
      · rw [if_pos hm]
        exact ⟨rfl, rfl⟩
      · rw [if_neg hm]
        by_cases hs : r0.status ≠ .in_progress
        · rw [if_pos hs]
          exact ⟨rfl, rfl⟩
        · rw [if_neg hs]
          have hcomm1 : hasCommissionTxn (updateReq db rid
              (mechanicCompletionUpdate r0.customer_confirmed now)).transactions rid =
              true := hcomm
          have hD2 : (if r0.customer_confirmed = true ∧ optTruthy r0.labor_cost = true then
              settleCommission (updateReq db rid
                (mechanicCompletionUpdate r0.customer_confirmed now))
                rid uid (r0.labor_cost.getD 0)
            else updateReq db rid
              (mechanicCompletionUpdate r0.customer_confirmed now)) =
              updateReq db rid (mechanicCompletionUpdate r0.customer_confirmed now) := by
            by_cases hf : r0.customer_confirmed = true ∧ optTruthy r0.labor_cost = true
            · rw [if_pos hf]
              exact settleCommission_skip _ rid uid (r0.labor_cost.getD 0) hcomm1
            · rw [if_neg hf]
          exact ⟨by rw [hD2]; rfl, by rw [hD2]; rfl⟩

/-- Witness for C3: at the reachable state `sdb9` request 0 carries exactly
one commission row, a repeated settlement is the identity, and a repeated
mechanic completion call leaves the ledger unchanged. -/
theorem commission_charged_once_witness :
    (sdb9.transactions.filter (isCommFor 0)).length ≤ 1 ∧
    settleCommission sdb9 0 1 100 = sdb9 ∧
    (completeServiceRequestMechanic sdb9 1 0 99).1.transactions = sdb9.transactions :=
  ⟨commission_charged_once.1 sdb9 reachable_sdb9 0,
    commission_charged_once.2.1 sdb9 0 1 100 rfl,
    (commission_charged_once.2.2.2 sdb9 1 0 99 rfl).1⟩

/-- C9: in every reachable state a request with `customer_confirmed = true`
has its `material_cost`, `labor_cost`, `total_cost` and `customer_rating` all
populated, because the customer completion is the only writer of that flag
and it writes all four fields in the same update. -/
theorem customer_confirmed_fields_populated (db : DB) (h : Reachable db) :
    ∀ r ∈ db.requests, r.customer_confirmed = true →
      r.material_cost.isSome ∧ r.labor_cost.isSome ∧ r.total_cost.isSome ∧
        r.customer_rating.isSome :=
  (reachable_inv db h).confirmed_fields

/-- Witness for C9 at the concrete reachable state `sdb9`: request 0 is
customer-confirmed and all four fields are populated. -/
theorem customer_confirmed_fields_populated_witness :
    ((findReq sdb9 0).getD default).material_cost.isSome ∧
    ((findReq sdb9 0).getD default).labor_cost.isSome ∧
    ((findReq sdb9 0).getD default).total_cost.isSome ∧
    ((findReq sdb9 0).getD default).customer_rating.isSome :=
  customer_confirmed_fields_populated sdb9 reachable_sdb9
    ((findReq sdb9 0).getD default)
    (findReq_mem sdb9 0 ((findReq sdb9 0).getD default) rfl) rfl

/-! ## Rating aggregation (claim C8) -/

theorem updateMechanicRating_requests (db : DB) (mechId : ℕ) :
    (updateMechanicRating db mechId).requests = db.requests := by
  rcases updateMechanicRating_cases db mechId with h | ⟨g, hgu, hgb, h⟩
  · rw [h]
  · rw [h]
    rfl

theorem allRatedRating_congr (db1 db2 : DB) (mechId : ℕ)
    (h : db1.requests = db2.requests) :
    allRatedRating db1 mechId = allRatedRating db2 mechId := by
  unfold allRatedRating ratedRequests
  rw [h]

theorem updateMechanicRating_eq_write (db : DB) (mechId : ℕ)
    (h0 : ¬ (db.requests.filter
      (fun r => r.mechanic_id == mechId && r.customer_rating.isSome)).length = 0) :
    updateMechanicRating db mechId = updateProfile db mechId (ratingWrite db mechId) := by
  unfold updateMechanicRating
  rw [if_neg h0]
  rfl

theorem ratingWrite_rating_eq (db : DB) (mechId : ℕ) (v : ℚ)
    (h : allRatedRating db mechId = some v) (p : MechanicProfile) :
    (ratingWrite db mechId p).rating = v := by
  unfold allRatedRating ratedRequests meanRating at h
  dsimp only at h
  by_cases h0 : (db.requests.filter
      (fun r => r.mechanic_id == mechId && r.customer_rating.isSome)).length = 0
  · rw [if_pos h0] at h
    exact Option.noConfusion h
  · rw [if_neg h0] at h
    exact Option.some.inj h

theorem findProfile_rating_write (db : DB) (mechId : ℕ) (v : ℚ)
    (h : allRatedRating db mechId = some v) :
    (findProfile (updateMechanicRating db mechId) mechId).map (·.rating) =
      (findProfile db mechId).map (fun _ => v) := by
  have h0 : ¬ (db.requests.filter
      (fun r => r.mechanic_id == mechId && r.customer_rating.isSome)).length = 0 := by
    intro h0
    unfold allRatedRating ratedRequests at h
    dsimp only at h
    rw [if_pos h0] at h
    exact Option.noConfusion h
  rw [updateMechanicRating_eq_write db mechId h0,
    findProfile_updateProfile db mechId mechId (ratingWrite db mechId) (fun p => rfl)]
  rcases hp : findProfile db mechId with _ | p
  · rfl
  · have hpu : (p.user_id == mechId) = true := by
      simp [findProfile_uid db mechId p hp]
    show some (if (p.user_id == mechId) = true then ratingWrite db mechId p else p).rating =
      some v
    rw [if_pos hpu]
    exact congrArg some (ratingWrite_rating_eq db mechId v h p)

theorem map_const_eq_of_isSome {α β : Type} (o1 o2 : Option α) (v : β)
    (h : o1.isSome = o2.isSome) : o1.map (fun _ => v) = o2.map (fun _ => v) := by
  cases o1 <;> cases o2 <;> simp_all

theorem findProfile_updateProfile_isSome (db : DB) (uid : ℕ)
    (f : MechanicProfile → MechanicProfile) (hf : ∀ p, (f p).user_id = p.user_id) (u : ℕ) :
    (findProfile (updateProfile db uid f) u).isSome = (findProfile db u).isSome := by
  rw [findProfile_updateProfile db uid u f hf]
  cases findProfile db u <;> rfl

theorem findProfile_settle_isSome (db : DB) (rid mechId : ℕ) (L : ℚ) (u : ℕ) :
    (findProfile (settleCommission db rid mechId L) u).isSome =
      (findProfile db u).isSome := by
  unfold settleCommission
  by_cases hc : hasCommissionTxn db.transactions rid = true
  · rw [if_pos hc]
  · rw [if_neg hc]
    rcases hp : findProfile db mechId with _ | p
    · rfl
    · dsimp only
      rw [findProfile_insertTxn]
      refine findProfile_updateProfile_isSome db mechId _ ?_ u
      intro q
      rfl

theorem settleCommission_ratings (db : DB) (rid mechId : ℕ) (L : ℚ) :
    (settleCommission db rid mechId L).profiles.map (fun p => (p.user_id, p.rating)) =
      db.profiles.map (fun p => (p.user_id, p.rating)) := by
  unfold settleCommission
  by_cases hc : hasCommissionTxn db.transactions rid = true
  · rw [if_pos hc]
  · rw [if_neg hc]
    rcases hp : findProfile db mechId with _ | p
    · rfl
    · dsimp only
      show (db.profiles.map _).map _ = _
      rw [List.map_map]
      refine List.map_congr_left ?_
      intro q hq
      by_cases hc2 : (q.user_id == mechId) = true
      · have heq : q.user_id = mechId := by simpa using hc2
        simp [hc2, heq]
      · have hne : ¬ q.user_id = mechId := by simpa using hc2
        simp [hc2, hne]

/-- C8 (amended): a successful customer completion recomputes the provider's
stored rating as the one-decimal rounding of the mean `customer_rating` over
ALL of the provider's rated requests - with no `status = completed` filter -
and it does so whether or not the call finalizes the request; the
mechanic-side completion never recomputes any rating. -/
theorem rating_mean_all_rated :
    (∀ (db : DB) (uid rid : ℕ) (m l rat : JVal) (rev : Option String) (now : ℕ)
      (r : ServiceRequest) (M L : ℚ) (R : ℤ) (v : ℚ),
      findReq db rid = some r → r.customer_id = uid → r.status = .in_progress →
      truthy m = true → truthy l = true → truthy rat = true →
      parseFloat m = some M → parseFloat l = some L → parseInt rat = some R →
      ¬(R < 1 ∨ 5 < R) →
      allRatedRating (completeServiceRequest db uid rid m l rat rev now).1
          r.mechanic_id = some v →
      (findProfile (completeServiceRequest db uid rid m l rat rev now).1
          r.mechanic_id).map (·.rating) =
        (findProfile db r.mechanic_id).map (fun _ => v)) ∧
    (∀ (db : DB) (uid rid now : ℕ),
      (completeServiceRequestMechanic db uid rid now).1.profiles.map
          (fun p => (p.user_id, p.rating)) =
        db.profiles.map (fun p => (p.user_id, p.rating))) := by
  constructor
  · intro db uid rid m l rat rev now r M L R v h hcid hst htm htl htr hm hl hr2 hrange hall
    rw [completeServiceRequest_success db uid rid m l rat rev now r M L R h hcid hst
      htm htl htr hm hl hr2 hrange] at hall ⊢
    have hall2 : allRatedRating (if r.mechanic_confirmed = true then
        settleCommission (updateReq db rid
          (customerCompletionUpdate M L R rev r.mechanic_confirmed now)) rid
          r.mechanic_id L
      else updateReq db rid
        (customerCompletionUpdate M L R rev r.mechanic_confirmed now)) r.mechanic_id =
        some v :=
      (allRatedRating_congr _ _ r.mechanic_id
        (updateMechanicRating_requests _ r.mechanic_id)).symm.trans hall
    have hsame : (findProfile (if r.mechanic_confirmed = true then
        settleCommission (updateReq db rid
          (customerCompletionUpdate M L R rev r.mechanic_confirmed now)) rid
          r.mechanic_id L
      else updateReq db rid
        (customerCompletionUpdate M L R rev r.mechanic_confirmed now))
        r.mechanic_id).isSome = (findProfile db r.mechanic_id).isSome := by
      by_cases hfin : r.mechanic_confirmed = true
      · rw [if_pos hfin, findProfile_settle_isSome]
        rfl
      · rw [if_neg hfin]
        rfl
    exact (findProfile_rating_write _ r.mechanic_id v hall2).trans
      (map_const_eq_of_isSome _ _ v hsame)
  · intro db uid rid now
    unfold completeServiceRequestMechanic
    rcases hr : findReq db rid with _ | r0
    · rfl
    · dsimp only
      by_cases hmid : r0.mechanic_id ≠ uid
      · rw [if_pos hmid]
      · rw [if_neg hmid]
        by_cases hs : r0.status ≠ .in_progress
        · rw [if_pos hs]
        · rw [if_neg hs]
          have key : ∀ d1 : DB, d1.profiles = db.profiles →
              ((if r0.customer_confirmed = true ∧ optTruthy r0.labor_cost = true then
                  settleCommission d1 rid uid (r0.labor_cost.getD 0)
                else d1)).profiles.map (fun p => (p.user_id, p.rating)) =
                db.profiles.map (fun p => (p.user_id, p.rating)) := by
            intro d1 h1
            by_cases hf : r0.customer_confirmed = true ∧ optTruthy r0.labor_cost = true
            · rw [if_pos hf, settleCommission_ratings, h1]
            · rw [if_neg hf, h1]
          exact key (updateReq db rid
            (mechanicCompletionUpdate r0.customer_confirmed now)) rfl

/-- Witness for C8: completing the third job of a mechanic whose earlier jobs
were rated 4 and 5 with a rating of 3 stores the all-rated aggregate. -/
theorem rating_mean_all_rated_witness :
    (findProfile (completeServiceRequest c8wdb 2 2 (.jnum 1) (.jnum 1) (.jnum 3)
        none 99).1 1).map (·.rating) =
      (findProfile c8wdb 1).map (fun _ => round1 (meanRating (ratedRequests
        (completeServiceRequest c8wdb 2 2 (.jnum 1) (.jnum 1) (.jnum 3)
          none 99).1.requests 1))) :=
  rating_mean_all_rated.1 c8wdb 2 2 (.jnum 1) (.jnum 1) (.jnum 3) none 99
    ((findReq c8wdb 2).getD default) 1 1 3
    (round1 (meanRating (ratedRequests
      (completeServiceRequest c8wdb 2 2 (.jnum 1) (.jnum 1) (.jnum 3) none 99).1.requests 1)))
    rfl rfl rfl rfl rfl rfl rfl rfl rfl (by decide) rfl

/-- Counterexample to C8 as stated: in `c8post` request 0 has just completed
with rating 5, yet the stored provider rating averages in the rating 1 of the
still-`in_progress` request 1, giving 3.0 instead of the completed-only mean
5.0 demanded by the spec wording. -/
theorem rating_mean_counterexample :
    (findReq c8post 0).map (·.status) = some Status.completed ∧
    (findReq c8post 0).map (·.customer_rating) = some (some 5) ∧
    (findReq c8post 1).map (·.status) = some Status.in_progress ∧
    (findProfile c8post 1).map (·.rating) =
      some (round1 (((6 : ℤ) : ℚ) / ((2 : ℕ) : ℚ))) ∧
    specCompletedRating c8post 1 = some (round1 (((5 : ℤ) : ℚ) / ((1 : ℕ) : ℚ))) ∧
    round1 (((6 : ℤ) : ℚ) / ((2 : ℕ) : ℚ)) = 3 ∧
    round1 (((5 : ℤ) : ℚ) / ((1 : ℕ) : ℚ)) = 5 ∧ (3 : ℚ) ≠ 5 :=
  ⟨rfl, rfl, rfl, rfl, rfl, by norm_num [round1, jsRound], by norm_num [round1, jsRound],
    by norm_num⟩

/-! ## Zero-cost completion (claim C10) -/

/-- C10 (amended): a numeric `0` for `material_cost` or `labor_cost` is falsy,
so the customer completion rejects it as a missing required field and mutates
nothing - but the STRING `"0"` is truthy, passes the presence check, parses to
`0`, and completes the request, so the claim's parenthetical about `"0"` does
not hold. -/
theorem zero_cost_rejected :
    (∀ (db : DB) (uid rid : ℕ) (l rat : JVal) (rev : Option String) (now : ℕ),
      completeServiceRequest db uid rid (.jnum 0) l rat rev now =
        (db, .error .missingFields)) ∧
    (∀ (db : DB) (uid rid : ℕ) (m rat : JVal) (rev : Option String) (now : ℕ),
      completeServiceRequest db uid rid m (.jnum 0) rat rev now =
        (db, .error .missingFields)) := by
  constructor
  · intro db uid rid l rat rev now
    unfold completeServiceRequest
    rw [if_pos (fun hc => by simpa [truthy] using hc.1)]
  · intro db uid rid m rat rev now
    unfold completeServiceRequest
    rw [if_pos (fun hc => by simpa [truthy] using hc.2.1)]

/-- Counterexample to C10 as stated: the same in-progress request that a
numeric `0` cannot complete is completed successfully by the string `"0"`,
because a non-empty string is truthy and `parseFloat "0"` yields `0`. -/
theorem zero_cost_string_counterexample :
    truthy (.jnum 0) = false ∧ truthy (.jstr "0") = true ∧
    parseFloat (.jstr "0") = some 0 ∧
    (completeServiceRequest sdb7 2 0 (.jnum 0) (.jnum 0) (.jnum 5) none 20).2 =
      .error .missingFields ∧
    (completeServiceRequest sdb7 2 0 (.jstr "0") (.jstr "0") (.jnum 5) none 20).2 =
      .ok () :=
  ⟨rfl, rfl, by
    have h0 : ('0').isDigit = true := by decide
    simp [parseFloat, parseFloatStr, digitsToNat, List.takeWhile, List.dropWhile, h0],
    rfl, rfl⟩

end Mekofix
